import Mathlib

/-!
Shallow embedding of the supercollider control plane (src/src-tauri/src),
covering the parts the claims are about: the context pool
(services/context_pool.rs), the task scheduler (services/scheduler.rs),
the agent pool (services/agent_pool.rs), the task shredder
(services/task_shredder.rs) and the task-execution primitive
(services/simple_executor_enhanced.rs).

Modelling conventions, used throughout:
* serde_json values are modelled by the inductive `Json`;
* chrono timestamps are modelled as `Int` seconds (the code only ever
  consumes timestamps through second-granularity differences);
* Rust HashMap / Vec fields are modelled as association lists / lists;
  HashMap removal and in-place mutation are modelled on the key, which is
  unique in every reachable Rust state;
* f32 arithmetic (agent health error rates) is modelled as exact rational
  arithmetic, with the literals 0.5 and 0.1 read as 1/2 and 1/10;
* network and subprocess effects are modelled as explicit outcome
  parameters (oracles) supplied to the embedded functions;
* Uuid::new_v4 id generation is modelled by a fresh counter.
-/

namespace SC

/-- Model of serde_json::Value. -/
inductive Json where
  | null : Json
  | bool (b : Bool) : Json
  | num (n : Rat) : Json
  | str (s : String) : Json
  | arr (xs : List Json) : Json
  | obj (fields : List (String × Json)) : Json

/-- models/mod.rs: Capability. -/
inductive Capability where
  | text | code | image | sound | video
  deriving DecidableEq, Repr

/-- models/mod.rs: TaskStatus. -/
inductive TaskStatus where
  | queued | running | completed | failed | blocked
  | waitingClarification | paused | cancelled | waitingApproval
  deriving DecidableEq, Repr

/-- models/mod.rs: ProjectStatus. -/
inductive ProjectStatus where
  | queued | running | paused | completed | failed | cancelled
  | waitingClarification
  deriving DecidableEq, Repr

/-- models/mod.rs: ProjectType. -/
inductive ProjectType where
  | codingProject | dataAnalysis | research | writing | design | marketing
  | custom
  deriving DecidableEq, Repr

/-- models/mod.rs: HealthStatus. -/
inductive HealthStatus where
  | healthy | degraded | unhealthy | unknown
  deriving DecidableEq, Repr

/-- models/mod.rs: Task.  serde_json payloads are `Json`, timestamps are
`Int` seconds. -/
structure Task where
  id : String
  project_id : String
  task_type : String
  capability : Capability
  status : TaskStatus
  dependencies : List String
  input_chain : List String
  input : Json
  output : Option Json := none
  preamble : Option String := none
  metadata : Option Json := none
  updated_at : Int := 0
  token_limit : Nat := 0
  priority_override : Option Int := none
  approval_required : Bool := false
  created_at : Int := 0
  started_at : Option Int := none
  completed_at : Option Int := none
  error : Option String := none
  retry_count : Nat := 0
  user_edited : Bool := false
  oneshot_count : Nat := 0
  last_agent : Option String := none
  last_agent_key_hint : Option String := none

/-- models/mod.rs: Project (clarity_score, an f32, is modelled as `Rat`). -/
structure Project where
  id : String
  project_type : ProjectType
  prompt : String
  initial_prompt : Option String := none
  status : ProjectStatus
  created_at : Int := 0
  updated_at : Int := 0
  config_override : Option Json := none
  clarity_score : Rat := 0
  tasks_count : Nat := 0
  completed_tasks : Nat := 0
  elaboration : Option String := none
  shredder_atoms : List String := []
  shredder_atomic_task_types : List String := []
  shredder_questions : List String := []
  shredder_raw : Option Json := none

/-- models/mod.rs: AgentAuth. -/
structure AgentAuth where
  auth_type : String
  api_key : Option String
  bearer_token : Option String
  custom_headers : List (String × String)

/-- models/mod.rs: AgentHealth (error_rate, an f32, is modelled as `Rat`). -/
structure AgentHealth where
  status : HealthStatus
  last_check : Int
  latency_ms : Option Nat
  error_rate : Rat
  success_count : Nat
  failure_count : Nat

/-- models/mod.rs: Agent. -/
structure Agent where
  name : String
  capabilities : List Capability
  endpoint_url : Option String := none
  auth : Option AgentAuth := none
  enabled : Bool
  priority : Int := 0
  health : AgentHealth
  is_local : Bool  -- `local` is a Lean keyword; this is Agent.local
  max_concurrent_tasks : Nat
  token_limit : Option Nat := none

/-! ## Context pool (services/context_pool.rs) -/

/-- context_pool.rs: ContextType. -/
inductive ContextType where
  | taskOutput | sharedMemory | artifact | document | codeType
  | configuration | validationResult | error
  deriving DecidableEq, Repr

/-- context_pool.rs: ContextEntry.  `created_at`/`updated_at` are `Int`
seconds; `ttl_seconds` is the Rust `Option<u64>`. -/
structure ContextEntry where
  id : String
  project_id : String
  task_id : String
  content_type : ContextType
  content : Json
  metadata : List (String × Json) := []
  created_at : Int
  updated_at : Int
  references : List String
  ttl_seconds : Option Nat

/-- context_pool.rs: ContextPool.  The three HashMaps are modelled as
lists; `entries` is keyed by `ContextEntry.id` (the key under which
`add_context` inserts each entry). -/
structure ContextPool where
  entries : List ContextEntry
  project_contexts : List (String × List String)
  task_contexts : List (String × List String)

/-- Look up a key in an association list (HashMap get). -/
def alistGet {α : Type} (m : List (String × α)) (k : String) : Option α :=
  (m.find? (fun p => p.fst == k)).map (·.snd)

/-- HashMap entry(k).or_default().push(v) on an association list of lists. -/
def alistPush (m : List (String × List String)) (k v : String) :
    List (String × List String) :=
  if (m.find? (fun p => p.fst == k)).isSome then
    m.map (fun p => if p.fst == k then (p.fst, p.snd ++ [v]) else p)
  else
    m ++ [(k, [v])]

/-- context_pool.rs: add_context. -/
def addContext (pool : ContextPool) (entry : ContextEntry) : ContextPool :=
  { entries := pool.entries ++ [entry]
    project_contexts := alistPush pool.project_contexts entry.project_id entry.id
    task_contexts := alistPush pool.task_contexts entry.task_id entry.id }

/-- context_pool.rs: get_context (HashMap lookup by entry id). -/
def getContext (pool : ContextPool) (id : String) : Option ContextEntry :=
  pool.entries.find? (fun e => e.id == id)

/-- context_pool.rs: update_context.  Returns the new pool together with
the Result; on a missing id the pool is returned unchanged with an error. -/
def updateContext (pool : ContextPool) (id : String) (content : Json)
    (now : Int) : ContextPool × Except String Unit :=
  match pool.entries.find? (fun e => e.id == id) with
  | some _ =>
      ({ pool with entries := pool.entries.map (fun e =>
           if e.id == id then { e with content := content, updated_at := now }
           else e) },
       Except.ok ())
  | none => (pool, Except.error "Context entry not found")

/-- context_pool.rs: remove_context.  Removes the entry and fixes the
project and task indexes; a missing id is an error and no change. -/
def removeContext (pool : ContextPool) (id : String) :
    ContextPool × Except String Unit :=
  match pool.entries.find? (fun e => e.id == id) with
  | some entry =>
      ({ entries := pool.entries.filter (fun e => ¬ (e.id == id))
         project_contexts := pool.project_contexts.map (fun p =>
           if p.fst == entry.project_id then
             (p.fst, p.snd.filter (fun pid => ¬ (pid == id)))
           else p)
         task_contexts := pool.task_contexts.map (fun p =>
           if p.fst == entry.task_id then
             (p.fst, p.snd.filter (fun tid => ¬ (tid == id)))
           else p) },
       Except.ok ())
  | none => (pool, Except.error "Context entry not found")

/-- Rust `as u64` applied to an i64 (two's-complement wraparound). -/
def asU64 (i : Int) : Nat := (i % (2 : Int) ^ 64).toNat

/-- context_pool.rs, cleanup_expired: the per-entry expiry test
`(now - entry.created_at).num_seconds() as u64 > ttl`. -/
def entryExpired (now : Int) (e : ContextEntry) : Bool :=
  match e.ttl_seconds with
  | some ttl => decide (asU64 (now - e.created_at) > ttl)
  | none => false

/-- Fold of `remove_context` over a list of ids, ignoring errors
(`let _ = self.remove_context(&id)`). -/
def removeMany (pool : ContextPool) (ids : List String) : ContextPool :=
  ids.foldl (fun s id => (removeContext s id).fst) pool

/-- context_pool.rs: cleanup_expired. -/
def cleanupExpired (pool : ContextPool) (now : Int) : ContextPool :=
  removeMany pool ((pool.entries.filter (entryExpired now)).map (·.id))

/-- Traversal accumulator of collect_context_recursive: the `result`
vector and the `visited` set (modelled as the list of inserted ids). -/
structure ChainAcc where
  result : List ContextEntry
  visited : List String

/-- context_pool.rs: collect_context_recursive.  The Rust recursion is on
a rising `depth` bounded by `max_depth`; here `fuel = max_depth - depth`,
so the Rust guard `depth >= max_depth` is `fuel = 0`, and the recursive
call at `depth + 1` has `fuel - 1`.  The loop
`for ref_id in &entry.references \x7b collect(...) \x7d` that threads the
accumulator through the children is the foldl. -/
def collectContextRecursive (entries : List ContextEntry) :
    Nat → String → ChainAcc → ChainAcc
  | 0, _, acc => acc
  | fuel + 1, id, acc =>
      if acc.visited.contains id then acc
      else
        let acc1 : ChainAcc := { acc with visited := id :: acc.visited }
        match entries.find? (fun e => e.id == id) with
        | none => acc1
        | some entry =>
            let acc2 := entry.references.foldl
              (fun a r => collectContextRecursive entries fuel r a) acc1
            { acc2 with result := acc2.result ++ [entry] }

/-- A sequence of sibling collect calls threading the accumulator: the
reference loop above, and also the root loop of get_context_chain. -/
def collectContextList (entries : List ContextEntry) (fuel : Nat)
    (ids : List String) (acc : ChainAcc) : ChainAcc :=
  ids.foldl (fun a r => collectContextRecursive entries fuel r a) acc

/-- context_pool.rs: get_context_chain.  Starts from the ids indexed under
`task_id` and collects depth-first with an initial depth of 0
(fuel `max_depth`). -/
def getContextChain (pool : ContextPool) (task_id : String)
    (max_depth : Nat) : List ContextEntry :=
  match alistGet pool.task_contexts task_id with
  | none => []
  | some context_ids =>
      (collectContextList pool.entries max_depth context_ids
        { result := [], visited := [] }).result

/-! ## Task scheduler (services/scheduler.rs)

The scheduler owns `queue` (a VecDeque of "project_id:task_id" strings),
`active_tasks` (queue id -> agent name) and, through AppState, the task
and project maps.  `find_suitable_agent` ends in a random shuffle, so it
is abstracted as an oracle parameter `findAgent`; everything else is
translated directly. -/

/-- The scheduler-visible slice of AppState plus the scheduler's own
queue and active map. -/
structure SchedState where
  tasks : List (String × List Task)
  projects : List (String × Project)
  queue : List String
  active : List (String × String)

/-- Mutate the first task with the given id in a project's task list
(the `for ... if task.id == task_id \{ ...; break \}` pattern). -/
def updateFirstTask (pts : List Task) (tid : String) (f : Task → Task) :
    List Task :=
  match pts with
  | [] => []
  | t :: rest =>
      if t.id == tid then f t :: rest
      else t :: updateFirstTask rest tid f

/-- Apply `f` to the task list of project `pid` (HashMap get_mut). -/
def updateProjectTasks (s : SchedState) (pid : String)
    (f : List Task → List Task) : SchedState :=
  { s with tasks := s.tasks.map (fun p =>
      if p.fst == pid then (p.fst, f p.snd) else p) }

/-- scheduler.rs: are_dependencies_met.  NOTE the source resolves each
dependency id with `find` and silently skips ids that match no task in
the project. -/
def areDependenciesMet (s : SchedState) (pid tid : String) : Bool :=
  match alistGet s.tasks pid with
  | none => false
  | some project_tasks =>
      match project_tasks.find? (fun t => t.id == tid) with
      | none => false
      | some task =>
          task.dependencies.all (fun dep_id =>
            match project_tasks.find? (fun t => t.id == dep_id) with
            | none => true
            | some dep_task => dep_task.status == TaskStatus.completed)

/-- scheduler.rs: enqueue_task — set the task's status to Queued (if it
exists) and push "pid:tid" to the queue tail. -/
def enqueueTask (s : SchedState) (pid tid : String) : SchedState :=
  let s := updateProjectTasks s pid (fun pts =>
    updateFirstTask pts tid (fun t => { t with status := TaskStatus.queued }))
  { s with queue := s.queue ++ [pid ++ ":" ++ tid] }

/-- scheduler.rs: get_max_concurrent_tasks. -/
def getMaxConcurrentTasks : Nat := 4

/-- scheduler.rs, process_queue: the body of `start_task_execution` — set
the task Running with a start timestamp and flip a Queued project to
Running. -/
def startTaskExecution (s : SchedState) (pid tid : String) (now : Int) :
    SchedState :=
  let s := updateProjectTasks s pid (fun pts =>
    updateFirstTask pts tid (fun t =>
      { t with status := TaskStatus.running, started_at := some now }))
  { s with projects := s.projects.map (fun p =>
      if p.fst == pid ∧ p.snd.status == ProjectStatus.queued then
        (p.fst, { p.snd with status := ProjectStatus.running })
      else p) }

/-- Structural split of a character list at a separator character. -/
def splitCharList (c : Char) : List Char → List (List Char)
  | [] => [[]]
  | x :: xs =>
      match splitCharList c xs with
      | [] => [[]]
      | g :: gs => if x = c then [] :: g :: gs else (x :: g) :: gs

/-- The queue-id split `queue_id.split(':')`: same semantics as
String.splitOn with the one-character separator ":", written with
structural recursion. -/
def splitOnColon (s : String) : List String :=
  (splitCharList ':' s.data).map (fun l => String.mk l)

/-- Outcome of one iteration of the process_queue while-loop: continue
looping, or stop the pass. -/
inductive IterOutcome where
  | cont (s : SchedState)
  | stop (s : SchedState)

/-- One iteration of the process_queue loop (scheduler.rs lines 116-144):
pop the head; drop it if it does not split as "pid:tid"; rotate it to the
tail if its dependencies are unmet; otherwise consult `findAgent` —
dispatch on success (stopping when the ceiling is reached), rotate and
stop on failure.  An empty queue stops the pass. -/
def processIter (findAgent : SchedState → String → String → Option String)
    (now : Int) (s : SchedState) : IterOutcome :=
  match s.queue with
  | [] => IterOutcome.stop s
  | queue_id :: rest =>
      let s0 : SchedState := { s with queue := rest }
      match splitOnColon queue_id with
      | [project_id, task_id] =>
          if ¬ areDependenciesMet s0 project_id task_id then
            IterOutcome.cont { s0 with queue := s0.queue ++ [queue_id] }
          else
            match findAgent s0 project_id task_id with
            | some agent_name =>
                let s1 : SchedState :=
                  { s0 with active := s0.active ++ [(queue_id, agent_name)] }
                let s2 := startTaskExecution s1 project_id task_id now
                if s2.active.length ≥ getMaxConcurrentTasks then
                  IterOutcome.stop s2
                else
                  IterOutcome.cont s2
            | none =>
                IterOutcome.stop { s0 with queue := s0.queue ++ [queue_id] }
      | _ => IterOutcome.cont s0

/-- The process_queue while-loop, with explicit fuel: `none` means the
loop has not finished within `fuel` iterations. -/
def processLoop (findAgent : SchedState → String → String → Option String)
    (now : Int) : Nat → SchedState → Option SchedState
  | 0, _ => none
  | fuel + 1, s =>
      match processIter findAgent now s with
      | IterOutcome.stop s' => some s'
      | IterOutcome.cont s' => processLoop findAgent now fuel s'

/-- scheduler.rs: process_queue — return immediately at the concurrency
ceiling, else run the loop. -/
def processQueue (findAgent : SchedState → String → String → Option String)
    (now : Int) (fuel : Nat) (s : SchedState) : Option SchedState :=
  if s.active.length ≥ getMaxConcurrentTasks then some s
  else processLoop findAgent now fuel s

/-- scheduler.rs: check_for_unblocked_tasks — push every Blocked task of
the project whose dependencies are met to the queue tail (status is not
changed here). -/
def checkForUnblockedTasks (s : SchedState) (pid : String) : SchedState :=
  match alistGet s.tasks pid with
  | none => s
  | some project_tasks =>
      { s with queue := s.queue ++
          ((project_tasks.filter (fun t =>
              t.status == TaskStatus.blocked ∧
              areDependenciesMet s pid t.id)).map
            (fun t => pid ++ ":" ++ t.id)) }

/-- scheduler.rs: handle_task_completed — drop the active slot, mark the
task Completed, complete the project when every task is Completed, then
re-scan for unblocked tasks. -/
def handleTaskCompleted (s : SchedState) (pid tid : String) (now : Int) :
    SchedState :=
  let queue_id := pid ++ ":" ++ tid
  let s := { s with active := s.active.filter (fun a => ¬ (a.fst == queue_id)) }
  let s := updateProjectTasks s pid (fun pts =>
    updateFirstTask pts tid (fun t =>
      { t with status := TaskStatus.completed, completed_at := some now }))
  let s :=
    match alistGet s.tasks pid with
    | none => s
    | some project_tasks =>
        if project_tasks.all (fun t => t.status == TaskStatus.completed) then
          { s with projects := s.projects.map (fun p =>
              if p.fst == pid then
                (p.fst, { p.snd with status := ProjectStatus.completed,
                                     completed_tasks := project_tasks.length })
              else p) }
        else s
  checkForUnblockedTasks s pid

/-- scheduler.rs: handle_task_failed — drop the active slot, mark the task
Failed recording the error, and when retry_count < 3 increment it, reset
the task to Queued and re-enqueue its queue id. -/
def handleTaskFailed (s : SchedState) (pid tid err : String) (now : Int) :
    SchedState :=
  let queue_id := pid ++ ":" ++ tid
  let s := { s with active := s.active.filter (fun a => ¬ (a.fst == queue_id)) }
  let hasTask :=
    match alistGet s.tasks pid with
    | none => false
    | some pts => (pts.find? (fun t => t.id == tid)).isSome
  let s := updateProjectTasks s pid (fun pts =>
    updateFirstTask pts tid (fun t =>
      let t := { t with status := TaskStatus.failed, error := some err,
                        completed_at := some now }
      if t.retry_count < 3 then
        { t with retry_count := t.retry_count + 1,
                 status := TaskStatus.queued }
      else t))
  let retried :=
    match alistGet s.tasks pid with
    | none => false
    | some pts =>
        match pts.find? (fun t => t.id == tid) with
        | none => false
        | some t => t.status == TaskStatus.queued
  if hasTask && retried then { s with queue := s.queue ++ [queue_id] } else s

/-! ## Agent pool (services/agent_pool.rs)

The remote HTTP call is abstracted as an outcome parameter; the local
simulator is translated directly. -/

/-- agent_pool.rs: AgentRequest. -/
structure AgentRequest where
  task_id : String
  task_type : String
  capability : Capability
  input : Json
  preamble : String
  token_limit : Nat
  context : List Json

/-- agent_pool.rs: AgentResponse. -/
structure AgentResponse where
  task_id : String
  success : Bool
  output : Option Json
  error : Option String
  tokens_used : Option Nat
  execution_time_ms : Nat

/-- agent_pool.rs: AgentConnection (the channel endpoints are omitted —
only `agent` and `active_tasks` are ever read). -/
structure AgentConnection where
  agent : Agent
  active_tasks : List String

/-- The agent pool's view of the world: its connection map plus the
AppState agent registry and task map. -/
structure AgentPoolState where
  agents : List Agent
  connections : List (String × AgentConnection)
  tasks : List (String × List Task)

/-- agent_pool.rs, update_agent_health lines 282-303: the mutation
applied to the named agent — bump the success or failure counter,
recompute `error_rate = failures / (successes + failures)` and re-derive
the status from the 0.5 / 0.1 thresholds.  f32 arithmetic is modelled as
exact `Rat` arithmetic. -/
def applyHealthUpdate (a : Agent) (is_success : Bool) (latency_ms : Nat)
    (now : Int) : Agent :=
  let h0 := a.health
  let h1 := if is_success
    then { h0 with success_count := h0.success_count + 1 }
    else { h0 with failure_count := h0.failure_count + 1 }
  let rate : Rat :=
    (h1.failure_count : Rat) / ((h1.success_count : Rat) + (h1.failure_count : Rat))
  let h2 := { h1 with error_rate := rate,
                      latency_ms := some latency_ms,
                      last_check := now }
  let st :=
    if h2.error_rate > (1 : Rat) / 2 then HealthStatus.unhealthy
    else if h2.error_rate > (1 : Rat) / 10 then HealthStatus.degraded
    else HealthStatus.healthy
  { a with health := { h2 with status := st } }

/-- agent_pool.rs: update_agent_health — apply the health mutation to the
first (in a reachable registry: the unique) agent with the given name. -/
def updateAgentHealth (agents : List Agent) (agent_name : String)
    (is_success : Bool) (latency_ms : Nat) (now : Int) : List Agent :=
  match agents with
  | [] => []
  | a :: rest =>
      if a.name == agent_name then
        applyHealthUpdate a is_success latency_ms now :: rest
      else a :: updateAgentHealth rest agent_name is_success latency_ms now

/-- agent_pool.rs: get_available_agents — enabled agents with the
capability, not Unhealthy, and with an established connection. -/
def getAvailableAgents (st : AgentPoolState) (capability : Capability) :
    List String :=
  ((st.agents.filter (fun a =>
      a.enabled ∧
      a.capabilities.contains capability ∧
      a.health.status ≠ HealthStatus.unhealthy ∧
      (alistGet st.connections a.name).isSome)).map (fun a => a.name))

/-- agent_pool.rs: build_task_context — resolve the outputs of the tasks
named in `input_chain` into a flat list of context objects. -/
def buildTaskContext (tasks : List (String × List Task)) (task : Task) :
    List Json :=
  if task.input_chain.isEmpty then []
  else
    match alistGet tasks task.project_id with
    | none => []
    | some project_tasks =>
        task.input_chain.foldl (fun ctx chain_task_id =>
          match project_tasks.find? (fun t => t.id == chain_task_id) with
          | none => ctx
          | some chain_task =>
              match chain_task.output with
              | none => ctx
              | some output =>
                  ctx ++ [Json.obj
                    [("task_id", Json.str chain_task.id),
                     ("task_type", Json.str chain_task.task_type),
                     ("output", output)]]) []

/-- agent_pool.rs: execute_local_task — the deterministic local
simulator; always succeeds.  `tokens_used` is
`(token_limit as f32 * 0.7) as u32`; 0.7f32 is exactly 11744051/2^24 and
the final f32 product rounding (at most one ulp) is not modelled. -/
def executeLocalTask (request : AgentRequest) : AgentResponse :=
  let output : Json :=
    match request.capability with
    | Capability.text =>
        Json.obj [("text", Json.str ("Generated text response for task "
                     ++ request.task_id)),
                  ("confidence", Json.num (95 / 100))]
    | Capability.code =>
        Json.obj [("code", Json.str "// Generated code\nfunction example() \x7b\n  return 'Hello World';\n\x7d"),
                  ("language", Json.str "javascript"),
                  ("confidence", Json.num (92 / 100))]
    | Capability.image =>
        Json.obj [("image_url", Json.str "generated_image.png"),
                  ("format", Json.str "png"),
                  ("dimensions", Json.obj [("width", Json.num 1024),
                                           ("height", Json.num 768)])]
    | _ => Json.obj [("result", Json.str "Simulated output")]
  { task_id := request.task_id
    success := true
    output := some output
    error := none
    tokens_used := some (request.token_limit * 11744051 / 2 ^ 24)
    execution_time_ms := 500 }

/-- The active-task push `connection.active_tasks.write().push(task.id)`. -/
def connPushActive (tid : String) (c : AgentConnection) : AgentConnection :=
  { c with active_tasks := c.active_tasks ++ [tid] }

/-- The active-task cleanup
`connection.active_tasks.write().retain(|id| id != &task.id)`. -/
def connRetainActive (tid : String) (c : AgentConnection) : AgentConnection :=
  { c with active_tasks := c.active_tasks.filter (fun id => ¬ (id == tid)) }

/-- agent_pool.rs: execute_task.  The remote branch
(`execute_remote_task`, an HTTP POST) is abstracted by the
`remoteOutcome` parameter; the not-found early return, the active-task
push/retain pair and the unconditional health update are translated
directly.  Returns the new pool state and the Result. -/
def poolExecuteTask (st : AgentPoolState) (agent_name : String)
    (task : Task) (remoteOutcome : Except String AgentResponse)
    (latency_ms : Nat) (now : Int) :
    AgentPoolState × Except String AgentResponse :=
  match alistGet st.connections agent_name with
  | none => (st, Except.error ("Agent " ++ agent_name ++ " not found"))
  | some connection =>
      let context := buildTaskContext st.tasks task
      let request : AgentRequest :=
        { task_id := task.id
          task_type := task.task_type
          capability := task.capability
          input := task.input
          -- the source writes `task.preamble.clone()` (an Option) into the
          -- String field; modelled as unwrap-or-empty
          preamble := task.preamble.getD ""
          token_limit := task.token_limit
          context := context }
      let st1 : AgentPoolState := { st with
        connections := st.connections.map (fun c =>
          if c.fst == agent_name then (c.fst, connPushActive task.id c.snd)
          else c) }
      let response : Except String AgentResponse :=
        if connection.agent.is_local then Except.ok (executeLocalTask request)
        else remoteOutcome
      let st2 : AgentPoolState := { st1 with
        connections := st1.connections.map (fun c =>
          if c.fst == agent_name then (c.fst, connRetainActive task.id c.snd)
          else c) }
      let is_success :=
        match response with
        | Except.ok r => r.success
        | Except.error _ => false
      let st3 : AgentPoolState := { st2 with
        agents := updateAgentHealth st2.agents agent_name is_success latency_ms now }
      (st3, response)

/-! ## Task shredder (services/task_shredder.rs)

`generate_task_id` wraps Uuid::new_v4; freshness is modelled by a counter
threaded through each shred call (ids "task-0", "task-1", ... within one
call), which realises the fresh-and-distinct contract of v4 uuids. -/

/-- task_shredder.rs: generate_task_id, counter model. -/
def generateTaskId (n : Nat) : String := "task-" ++ toString n

/-- task_shredder.rs: create_task — the generic stage builder.  Note
`input_chain` is set to the direct `dependencies` list, and
`approval_required` is `priority == Some(1)`. -/
def createTask (project : Project) (n : Nat) (task_type : String)
    (capability : Capability) (dependencies : List String)
    (preamble : String) (token_limit : Nat) (priority : Option Int)
    (now : Int) : Task :=
  { id := generateTaskId n
    project_id := project.id
    task_type := task_type
    capability := capability
    status := if dependencies.isEmpty then TaskStatus.queued
              else TaskStatus.blocked
    dependencies := dependencies
    input_chain := dependencies
    input := Json.obj [("prompt", Json.str project.prompt),
                       ("task_type", Json.str task_type)]
    output := none
    preamble := some preamble
    token_limit := token_limit
    priority_override := priority
    approval_required := match priority with
                         | none => false
                         | some p => p == 1
    created_at := now
    started_at := none
    completed_at := none
    error := none
    retry_count := 0
    updated_at := now
    metadata := none
    user_edited := false
    oneshot_count := 0 }

/-- task_shredder.rs: shred_coding_project — the hand-written 6-stage
coding pipeline.  The review task's `input_chain` is empty in the
source. -/
def shredCodingProject (project : Project) (now : Int) : List Task :=
  let base_prompt := project.prompt
  let arch_task : Task :=
    { id := generateTaskId 0
      project_id := project.id
      task_type := "architecture"
      capability := Capability.text
      status := TaskStatus.queued
      dependencies := []
      input_chain := []
      input := Json.obj
        [("prompt", Json.str ("Create a detailed architecture plan for: "
            ++ base_prompt)),
         ("requirements", Json.str base_prompt)]
      preamble := some "Design a modular, scalable architecture. Include component diagrams, data flow, and technology stack recommendations."
      token_limit := 2000
      priority_override := some 1
      approval_required := true
      created_at := now
      updated_at := now }
  let module_task : Task :=
    { id := generateTaskId 1
      project_id := project.id
      task_type := "module_planning"
      capability := Capability.text
      status := TaskStatus.blocked
      dependencies := [arch_task.id]
      input_chain := [arch_task.id]
      input := Json.obj
        [("prompt", Json.str "Break down the architecture into implementable modules")]
      preamble := some "Create detailed module specifications with clear interfaces and responsibilities."
      token_limit := 1500
      priority_override := some 2
      approval_required := false
      created_at := now
      updated_at := now }
  let impl_task : Task :=
    { id := generateTaskId 2
      project_id := project.id
      task_type := "core_implementation"
      capability := Capability.code
      status := TaskStatus.blocked
      dependencies := [module_task.id]
      input_chain := [arch_task.id, module_task.id]
      input := Json.obj
        [("prompt", Json.str "Implement the core modules"),
         ("language", Json.str "auto-detect")]
      preamble := some "Implement clean, well-documented code following best practices. Include error handling and logging."
      token_limit := 4000
      priority_override := some 3
      approval_required := true
      created_at := now
      updated_at := now }
  let test_task : Task :=
    { id := generateTaskId 3
      project_id := project.id
      task_type := "unit_testing"
      capability := Capability.code
      status := TaskStatus.blocked
      dependencies := [impl_task.id]
      input_chain := [impl_task.id]
      input := Json.obj
        [("prompt", Json.str "Write comprehensive unit tests")]
      preamble := some "Create thorough unit tests with edge cases, mocks, and good coverage."
      token_limit := 2000
      priority_override := some 4
      approval_required := false
      created_at := now
      updated_at := now }
  let doc_task : Task :=
    { id := generateTaskId 4
      project_id := project.id
      task_type := "documentation"
      capability := Capability.text
      status := TaskStatus.blocked
      dependencies := [impl_task.id]
      input_chain := [arch_task.id, module_task.id, impl_task.id]
      input := Json.obj
        [("prompt", Json.str "Generate comprehensive documentation")]
      preamble := some "Create user-friendly documentation including API reference, usage examples, and setup guide."
      token_limit := 2500
      priority_override := some 5
      approval_required := false
      created_at := now
      updated_at := now }
  let review_task : Task :=
    { id := generateTaskId 5
      project_id := project.id
      task_type := "review"
      capability := Capability.text
      status := TaskStatus.blocked
      dependencies := [test_task.id, doc_task.id]
      input_chain := []
      input := Json.obj
        [("prompt", Json.str "Review the complete implementation")]
      preamble := some "Perform final review, suggest improvements, and ensure all requirements are met."
      token_limit := 1000
      priority_override := some 6
      approval_required := true
      created_at := now
      updated_at := now }
  [arch_task, module_task, impl_task, test_task, doc_task, review_task]

/-- task_shredder.rs: shred_data_analysis. -/
def shredDataAnalysis (project : Project) (now : Int) : List Task :=
  let t0 := createTask project 0 "data_understanding" Capability.text []
    "Analyze data requirements and identify sources" 1500 (some 1) now
  let t1 := createTask project 1 "data_preparation" Capability.code [t0.id]
    "Clean, transform, and prepare data for analysis" 2000 (some 2) now
  let t2 := createTask project 2 "analysis" Capability.code [t1.id]
    "Perform statistical analysis and generate insights" 3000 (some 3) now
  let t3 := createTask project 3 "visualization" Capability.code [t2.id]
    "Create meaningful visualizations and charts" 2000 (some 4) now
  let t4 := createTask project 4 "report" Capability.text [t2.id, t3.id]
    "Generate comprehensive analysis report" 2500 (some 5) now
  [t0, t1, t2, t3, t4]

/-- task_shredder.rs: shred_research_project. -/
def shredResearchProject (project : Project) (now : Int) : List Task :=
  let t0 := createTask project 0 "literature_review" Capability.text []
    "Conduct comprehensive literature review" 3000 (some 1) now
  let t1 := createTask project 1 "hypothesis" Capability.text [t0.id]
    "Formulate research hypothesis and questions" 1500 (some 2) now
  let t2 := createTask project 2 "methodology" Capability.text [t1.id]
    "Design research methodology" 2000 (some 3) now
  let t3 := createTask project 3 "analysis" Capability.text [t2.id]
    "Analyze findings and draw conclusions" 3000 (some 4) now
  let t4 := createTask project 4 "paper" Capability.text [t3.id]
    "Write research paper with citations" 4000 (some 5) now
  [t0, t1, t2, t3, t4]

/-- task_shredder.rs: shred_writing_project. -/
def shredWritingProject (project : Project) (now : Int) : List Task :=
  let t0 := createTask project 0 "outline" Capability.text []
    "Create detailed content outline" 1000 (some 1) now
  let t1 := createTask project 1 "draft" Capability.text [t0.id]
    "Write first draft" 4000 (some 2) now
  let t2 := createTask project 2 "edit" Capability.text [t1.id]
    "Edit and refine content" 3000 (some 3) now
  let t3 := createTask project 3 "polish" Capability.text [t2.id]
    "Final polish and formatting" 2000 (some 4) now
  [t0, t1, t2, t3]

/-- task_shredder.rs: shred_design_project. -/
def shredDesignProject (project : Project) (now : Int) : List Task :=
  let t0 := createTask project 0 "concept" Capability.text []
    "Develop design concept and mood board" 1500 (some 1) now
  let t1 := createTask project 1 "wireframes" Capability.image [t0.id]
    "Create wireframes and layout" 2000 (some 2) now
  let t2 := createTask project 2 "visual_design" Capability.image [t1.id]
    "Create visual designs and mockups" 3000 (some 3) now
  let t3 := createTask project 3 "design_system" Capability.text [t2.id]
    "Document design system and guidelines" 2000 (some 4) now
  [t0, t1, t2, t3]

/-- task_shredder.rs: shred_marketing_project. -/
def shredMarketingProject (project : Project) (now : Int) : List Task :=
  let t0 := createTask project 0 "market_research" Capability.text []
    "Conduct market research and competitor analysis" 2500 (some 1) now
  let t1 := createTask project 1 "strategy" Capability.text [t0.id]
    "Develop marketing strategy" 2000 (some 2) now
  let t2 := createTask project 2 "content" Capability.text [t1.id]
    "Create marketing content and copy" 3000 (some 3) now
  let t3 := createTask project 3 "campaign" Capability.text [t2.id]
    "Design campaign execution plan" 2000 (some 4) now
  [t0, t1, t2, t3]

/-- task_shredder.rs: shred_custom_project — the 3-stage generic
fallback. -/
def shredCustomProject (project : Project) (now : Int) : List Task :=
  let t0 := createTask project 0 "analysis" Capability.text []
    "Analyze requirements and create plan" 2000 (some 1) now
  let t1 := createTask project 1 "implementation" Capability.text [t0.id]
    "Execute main project tasks" 4000 (some 2) now
  let t2 := createTask project 2 "review" Capability.text [t1.id]
    "Review and finalize deliverables" 1500 (some 3) now
  [t0, t1, t2]

/-- task_shredder.rs: shred_project — dispatch on the project archetype
(the Rust function wraps the result in Ok unconditionally). -/
def shredProject (project : Project) (now : Int) : List Task :=
  match project.project_type with
  | ProjectType.codingProject => shredCodingProject project now
  | ProjectType.dataAnalysis => shredDataAnalysis project now
  | ProjectType.research => shredResearchProject project now
  | ProjectType.writing => shredWritingProject project now
  | ProjectType.design => shredDesignProject project now
  | ProjectType.marketing => shredMarketingProject project now
  | ProjectType.custom => shredCustomProject project now

/-! ## Task-execution primitive (services/simple_executor_enhanced.rs)

The provider HTTP calls, the post-processing subprocess, the tokenizer
and the backoff clock are external effects, abstracted into an `ExecEnv`
oracle; the retry control flow of `execute_task` and the context
enhancement of `execute_with_context` are translated directly. -/

/-- simple_executor_enhanced.rs: ToolConfig. -/
structure ToolConfig where
  name : String
  command : String
  args_template : List String

/-- simple_executor_enhanced.rs: TaskExecution.  `capability` is a
free-form string in this file (unlike models::Capability). -/
structure TaskExecution where
  task_id : String
  preamble : String
  input : Json
  capability : String
  tool : Option ToolConfig
  api_key : Option String
  model : Option String
  max_retries : Option Nat
  timeout_secs : Option Nat
  full_context : Option Json
  related_outputs : Option (List Json)
  retry_count : Nat
  requires_user_input : Bool

/-- simple_executor_enhanced.rs: ExecutionResult. -/
structure ExecutionResult where
  success : Bool
  output : Option Json
  error : Option String
  tool_output : Option String
  tokens_used : Option Nat
  execution_time_ms : Option Nat
  needs_user_input : Bool
  retry_strategy : Option String

/-- The external world seen by the executor: `provider n` is the outcome
of the n-th provider call of one execute_task invocation (the HTTP
POST inside call_text_api / call_image_api / call_audio_api);
`toolApply` is apply_tool's subprocess; `countTokens` is the tiktoken
p50k tokenizer applied to the preamble and the serialized input;
`backoffFuel` is the number of further attempts the ExponentialBackoff
time budget admits; `elapsedMs` is the wall-clock of the invocation. -/
structure ExecEnv where
  provider : Nat → Except String ExecutionResult
  toolApply : ToolConfig → ExecutionResult → Except String ExecutionResult
  countTokens : String → Json → Except String Nat
  backoffFuel : Nat
  elapsedMs : Nat

/-- The preamble annotation added on the full-context retry (the format!
at simple_executor_enhanced.rs lines 240-246). -/
def retryNote (attempt : Nat) : String :=
  "\n\nNote: This is retry attempt " ++ toString attempt
    ++ " with full context. Previous attempt with sliced context failed. Please carefully consider all provided context and related agent outputs."

/-- simple_executor_enhanced.rs, execute_with_context lines 225-251: the
enhanced task built when `use_full_context` holds and a full context is
present; otherwise the task unchanged. -/
def buildEnhancedTask (task : TaskExecution) (use_full_context : Bool) :
    TaskExecution :=
  if use_full_context ∧ task.full_context.isSome then
    let base : List (String × Json) :=
      [("original_input", task.input),
       ("full_context", match task.full_context with
                        | some v => v
                        | none => Json.null),
       ("retry_attempt", Json.num ((task.retry_count : Rat) + 1))]
    let fields :=
      match task.related_outputs with
      | some related => base ++ [("related_agent_outputs", Json.arr related)]
      | none => base
    { task with input := Json.obj fields
                preamble := task.preamble ++ retryNote (task.retry_count + 1) }
  else task

/-- simple_executor_enhanced.rs: execute_with_context — enhance the task,
then dispatch on the capability string; text/code/image/sound reach a
provider (the oracle), video always fails, anything else is an unknown
capability.  `callIdx` numbers the provider calls of the invocation. -/
def executeWithContext (env : ExecEnv) (callIdx : Nat)
    (task : TaskExecution) (use_full_context : Bool) :
    Except String ExecutionResult :=
  let enhanced_task := buildEnhancedTask task use_full_context
  match enhanced_task.capability with
  | "text" => env.provider callIdx
  | "code" => env.provider callIdx
  | "image" => env.provider callIdx
  | "sound" => env.provider callIdx
  | "video" => Except.error "Video generation not yet implemented"
  | _ => Except.error ("Unknown capability: " ++ enhanced_task.capability)

/-- Did an execute_with_context result fall through execute_task's
`if let Ok(res) = result \{ if res.success \{ return \} \}` guard? -/
def attemptFailed (r : Except String ExecutionResult) : Bool :=
  match r with
  | Except.ok res => ¬ res.success
  | Except.error _ => true

/-- simple_executor_enhanced.rs, execute_task lines 195-204: the
`backoff::future::retry` loop — an Err outcome is transient and retried,
any Ok outcome (successful or not) ends the loop; an exhausted time
budget becomes the "All retries exhausted" error.  Also returns the
number of provider calls made. -/
def backoffRetry (env : ExecEnv) (task : TaskExecution) :
    Nat → Nat → Except String ExecutionResult × Nat
  | _, 0 => (Except.error "All retries exhausted", 0)
  | callIdx, fuel + 1 =>
      match executeWithContext env callIdx task false with
      | Except.ok r => (Except.ok r, 1)
      | Except.error _ =>
          let (res, n) := backoffRetry env task (callIdx + 1) fuel
          (res, n + 1)

/-- simple_executor_enhanced.rs: execute_task.  Returns the Result
together with the trace of execute_with_context attempts, each recorded
as the enhanced task that was dispatched and its use_full_context flag.
(The token-usage side counter `token_counter` and the per-provider rate
limiter are process-global bookkeeping with no bearing on the result and
are not modelled.) -/
def executeTask (env : ExecEnv) (task0 : TaskExecution) :
    Except String ExecutionResult × List (TaskExecution × Bool) :=
  -- First attempt with sliced context
  let r1 := executeWithContext env 0 task0 false
  let trace1 := [(buildEnhancedTask task0 false, false)]
  if r1.toOption.any (fun res => res.success) then
    (r1, trace1)
  else
    -- If first attempt failed and we have full context, retry with full
    -- context (task.retry_count += 1)
    let task1 :=
      if task0.full_context.isSome ∧ task0.retry_count == 0 then
        { task0 with retry_count := task0.retry_count + 1 }
      else task0
    let (r2?, trace2) :=
      if task0.full_context.isSome ∧ task0.retry_count == 0 then
        (some (executeWithContext env 1 task1 true),
         trace1 ++ [(buildEnhancedTask task1 true, true)])
      else (none, trace1)
    match r2? with
    | some r2 =>
        if r2.toOption.any (fun res => res.success) then
          (r2, trace2)
        else
          -- After two failures, require user input (task1.retry_count ≥ 1)
          (Except.ok
            { success := false
              output := none
              error := some "Task failed after multiple attempts. User input required for clarification."
              tool_output := none
              tokens_used := none
              execution_time_ms := some env.elapsedMs
              needs_user_input := true
              retry_strategy := some "exhausted" },
           trace2)
    | none =>
        if task1.retry_count ≥ 1 then
          -- reached with retry_count ≥ 1 on entry and no full-context retry
          (Except.ok
            { success := false
              output := none
              error := some "Task failed after multiple attempts. User input required for clarification."
              tool_output := none
              tokens_used := none
              execution_time_ms := some env.elapsedMs
              needs_user_input := true
              retry_strategy := some "exhausted" },
           trace2)
        else
          -- Standard retry with exponential backoff, then optional tool
          -- application and token accounting
          let (res, n) := backoffRetry env task1 1 env.backoffFuel
          let trace3 := trace2 ++
            (List.range n).map (fun _ => (buildEnhancedTask task1 false, false))
          match res with
          | Except.error e => (Except.error e, trace3)
          | Except.ok result =>
              let toolRes :=
                match task1.tool with
                | some tool => env.toolApply tool result
                | none => Except.ok result
              match toolRes with
              | Except.error e => (Except.error e, trace3)
              | Except.ok final1 =>
                  let final2 := { final1 with
                    execution_time_ms := some env.elapsedMs }
                  match env.countTokens task1.preamble task1.input with
                  | Except.error e => (Except.error e, trace3)
                  | Except.ok tokens =>
                      (Except.ok { final2 with tokens_used := some tokens },
                       trace3)

/-! ## Scheduler event system (for the dependency invariant)

The scheduler's run loop consumes SchedulerCommands one per tick and, in
between, dispatches queue heads.  The observable task-state transitions
form the event system below: each event is one handler invocation (the
dispatch event carries the result of the randomized find_suitable_agent
as an oracle value). -/

/-- One scheduler-level event: a command handler invocation or one
dispatch iteration of process_queue. -/
inductive SchedEvent where
  | enqueue (pid tid : String)
  | dispatch (agent : Option String)
  | taskDone (pid tid : String)
  | taskFail (pid tid err : String)
  | reorder (ids : List String)

/-- The state transition of one event (scheduler.rs handlers). -/
def stepEvent (now : Int) (e : SchedEvent) (s : SchedState) : SchedState :=
  match e with
  | SchedEvent.enqueue pid tid => enqueueTask s pid tid
  | SchedEvent.dispatch agent =>
      match processIter (fun _ _ _ => agent) now s with
      | IterOutcome.cont s' => s'
      | IterOutcome.stop s' => s'
  | SchedEvent.taskDone pid tid => handleTaskCompleted s pid tid now
  | SchedEvent.taskFail pid tid err => handleTaskFailed s pid tid err now
  | SchedEvent.reorder ids => { s with queue := ids }

/-- Run a list of events. -/
def runEvents (now : Int) (es : List SchedEvent) (s : SchedState) :
    SchedState :=
  es.foldl (fun s e => stepEvent now e s) s

/-- The status of the (first) task with the given id in the (first) task
list of the project, as the scheduler's handlers resolve it. -/
def statusOf (s : SchedState) (pid tid : String) : Option TaskStatus :=
  match alistGet s.tasks pid with
  | none => none
  | some pts => (pts.find? (fun t => t.id == tid)).map (·.status)

/-- Extra hypotheses under which the preservation lemmas below hold:
EnqueueTask and TaskFailed do not target a task that is already
Completed, TaskCompleted only targets a Running (previously dispatched)
task, and — queue hygiene — a dispatch does not pop a queue id naming a
Completed task.  The last clause is a genuine assumption, not a check
performed by the code: process_queue consults only are_dependencies_met
and never the popped task's own status, and stale duplicate queue ids
violating the clause are reachable (see staleState and the C1
theorem). -/
def Admissible (s : SchedState) (e : SchedEvent) : Prop :=
  match e with
  | SchedEvent.enqueue pid tid => statusOf s pid tid ≠ some TaskStatus.completed
  | SchedEvent.dispatch _ =>
      match s.queue with
      | [] => True
      | qid :: _ =>
          match splitOnColon qid with
          | [pid, tid] => statusOf s pid tid ≠ some TaskStatus.completed
          | _ => True
  | SchedEvent.taskDone pid tid => statusOf s pid tid = some TaskStatus.running
  | SchedEvent.taskFail pid tid _ => statusOf s pid tid ≠ some TaskStatus.completed
  | SchedEvent.reorder _ => True

/-- An event list each of whose events is admissible in the state where
it fires. -/
def AdmissibleRun (now : Int) : List SchedEvent → SchedState → Prop
  | [], _ => True
  | e :: es, s => Admissible s e ∧ AdmissibleRun now es (stepEvent now e s)

instance (s : SchedState) (e : SchedEvent) : Decidable (Admissible s e) := by
  unfold Admissible
  cases e <;> simp only [] <;> first
    | infer_instance
    | (repeat' (first | infer_instance | split))

instance (now : Int) (es : List SchedEvent) (s : SchedState) :
    Decidable (AdmissibleRun now es s) := by
  induction es generalizing s with
  | nil => exact inferInstanceAs (Decidable True)
  | cons e es ih =>
      have := ih
      exact inferInstanceAs (Decidable (_ ∧ _))

/-- Well-formed scheduler state: the task map has HashMap-unique keys. -/
def TasksWF (s : SchedState) : Prop := (s.tasks.map (·.fst)).Nodup

instance (s : SchedState) : Decidable (TasksWF s) := by
  unfold TasksWF; infer_instance

/-- Is the (first) project task with id `d` Completed, when it exists?
This is exactly how are_dependencies_met resolves one dependency id. -/
def depOk (pts : List Task) (d : String) : Bool :=
  match pts.find? (fun t => t.id == d) with
  | none => true
  | some dep_task => dep_task.status == TaskStatus.completed

/-- The dependency invariant, strengthened to Running tasks (a Running
task was dispatched through the are_dependencies_met gate): every
Completed or Running task's resolvable dependencies are Completed. -/
def DepInv (s : SchedState) : Prop :=
  ∀ p ∈ s.tasks, ∀ t ∈ p.snd,
    (t.status = TaskStatus.completed ∨ t.status = TaskStatus.running) →
    ∀ d ∈ t.dependencies, depOk p.snd d = true

instance (s : SchedState) : Decidable (DepInv s) := by
  unfold DepInv; infer_instance

/-- The claim's reading of the invariant: every dependency id of a
Completed task refers to some task of the project that is Completed. -/
def DepInvClaimed (s : SchedState) : Prop :=
  ∀ p ∈ s.tasks, ∀ t ∈ p.snd,
    t.status = TaskStatus.completed →
    ∀ d ∈ t.dependencies, ∃ t' ∈ p.snd,
      t'.id = d ∧ t'.status = TaskStatus.completed

instance (s : SchedState) : Decidable (DepInvClaimed s) := by
  unfold DepInvClaimed; infer_instance

/-! ## Predicates for the context-chain claim -/

/-- The claimed emission order: no emitted entry references an entry that
is emitted after it (with distinct ids this says every emitted
referenced entry appears before each of its emitted referencers). -/
def ChainOrdered (l : List ContextEntry) : Prop :=
  l.Pairwise (fun a b => b.id ∉ a.references)

instance (l : List ContextEntry) : Decidable (ChainOrdered l) := by
  unfold ChainOrdered; infer_instance

/-- A reference path of the given length between two context-entry ids,
following the `references` edges as collect_context_recursive resolves
them. -/
inductive RefPath (entries : List ContextEntry) : String → String → Nat → Prop
  | here (a : String) : RefPath entries a a 0
  | step {a c : String} {e : ContextEntry} {b : String} {n : Nat} :
      entries.find? (fun x => x.id == a) = some e →
      b ∈ e.references →
      RefPath entries b c n →
      RefPath entries a c (n + 1)

/-- An acyclicity witness for the reference graph: a rank function that
strictly drops along every reference edge. -/
def RankedAcyclic (entries : List ContextEntry) (rank : String → Nat) : Prop :=
  ∀ e ∈ entries, ∀ r ∈ e.references, rank r < rank e.id

instance (entries : List ContextEntry) (rank : String → Nat) :
    Decidable (RankedAcyclic entries rank) := by
  unfold RankedAcyclic; infer_instance

/-- Traversal invariant carried through collect_context_recursive for the
ordering argument: the emitted prefix is ordered, every reference of an
emitted entry is already in the visited set, and every emitted entry came
out of `entries` (it is a find? result). -/
def ChainInv (entries : List ContextEntry) (acc : ChainAcc) : Prop :=
  ChainOrdered acc.result ∧
  (∀ e ∈ acc.result, ∀ r ∈ e.references, r ∈ acc.visited) ∧
  (∀ e ∈ acc.result, e ∈ entries)

/-- How many entry ids are still unvisited: the fuel reserve needed so
that the `depth >= max_depth` cutoff can never fire. -/
def chainMeasure (entries : List ContextEntry) (acc : ChainAcc) : Nat :=
  ((entries.map (fun e => e.id)).toFinset \ acc.visited.toFinset).card

/-- Traversal invariant for the visit-once argument: emitted ids are
distinct and recorded in the visited set. -/
def ChainNodupInv (acc : ChainAcc) : Prop :=
  (acc.result.map (fun e => e.id)).Nodup ∧
  ∀ e ∈ acc.result, e.id ∈ acc.visited

/-! ## Predicates for the shredder claims -/

/-- The (id, task_type, dependencies) signature of a generated task. -/
def tsig (t : Task) : String × String × List String :=
  (t.id, t.task_type, t.dependencies)

/-- Every dependency of every task points to a task appearing strictly
earlier in the list — the edges therefore form a DAG. -/
def depsPointEarlier (l : List (String × String × List String)) : Bool :=
  (l.foldl (fun st p =>
      (st.fst && p.2.2.all (fun d => st.snd.contains d),
       st.snd ++ [p.fst]))
    (true, [])).fst

/-- One step of undirected closure over dependency edges. -/
def growReach (l : List (String × String × List String))
    (reached : List String) : List String :=
  (l.map (·.fst)).filter (fun n =>
    reached.contains n ||
    l.any (fun p =>
      (p.fst == n && p.2.2.any (fun d => reached.contains d)) ||
      (reached.contains p.fst && p.2.2.contains n)))

/-- The dependency edges connect all tasks into a single weak component:
iterating closure from the first task reaches every task. -/
def sigConnected (l : List (String × String × List String)) : Bool :=
  match l with
  | [] => true
  | p :: _ =>
      let reached := (List.range l.length).foldl
        (fun r _ => growReach l r) [p.fst]
      l.all (fun q => reached.contains q.fst)

/-- The task list ends in a single "review" task whose dependencies are
exactly the ids of the "unit_testing" and the "documentation" tasks. -/
def reviewFinalOK (l : List (String × String × List String)) : Bool :=
  ((l.filter (fun p => p.2.1 == "review")).length == 1) &&
  (match l.getLast? with
   | none => false
   | some p =>
       (p.2.1 == "review") &&
       (p.2.2 ==
         ((l.filter (fun q => q.2.1 == "unit_testing")).map (·.fst)) ++
         ((l.filter (fun q => q.2.1 == "documentation")).map (·.fst))))

/-- All ids of the task-id closure of `t.dependencies` within `ts` (the
full ancestry of a task in the template's dependency graph), computed as
a bounded closure. -/
def ancestorIds (ts : List Task) (t : Task) : List String :=
  (List.range ts.length).foldl
    (fun anc _ =>
      anc ++ ((ts.filter (fun u =>
        anc.contains u.id ∧ ¬ (u.dependencies.filter
          (fun d => ¬ anc.contains d)).isEmpty)).map
            (fun u => u.dependencies.filter
              (fun d => ¬ anc.contains d))).flatten)
    t.dependencies

/-- The claimed chain-context property: each generated task's input_chain
contains its full ancestry, not only its direct dependencies. -/
def inputChainContainsAncestry (ts : List Task) : Bool :=
  ts.all (fun t => (ancestorIds ts t).all (fun a => t.input_chain.contains a))

/-! ## Concrete instances used by counterexamples and witnesses -/

/-- A coding project. -/
def codingProj : Project :=
  { id := "P", project_type := ProjectType.codingProject,
    prompt := "build a parser", status := ProjectStatus.queued }

/-- A context entry skeleton. -/
def baseEntry : ContextEntry :=
  { id := "A", project_id := "p", task_id := "t",
    content_type := ContextType.taskOutput, content := Json.null,
    created_at := 0, updated_at := 0, references := ["B"],
    ttl_seconds := none }

/-- Entries A and B referencing each other: a reference cycle. -/
def cyclePool : ContextPool :=
  { entries := [baseEntry, { baseEntry with id := "B", references := ["A"] }]
    project_contexts := [("p", ["A", "B"])]
    task_contexts := [("t", ["A"])] }

/-- Acyclic entries C -> D, both indexed under task t. -/
def cutoffPool : ContextPool :=
  { entries := [{ baseEntry with id := "C", references := ["D"] },
                { baseEntry with id := "D", references := [] }]
    project_contexts := [("p", ["C", "D"])]
    task_contexts := [("t", ["C", "D"])] }

/-- A pool holding one entry whose created_at lies in the future of the
probe time 0, with a 5-second TTL. -/
def futurePool : ContextPool :=
  { entries :=
      [{ baseEntry with
         id := "x"
         references := []
         created_at := 1
         ttl_seconds := some 5 }]
    project_contexts := [("p", ["x"])]
    task_contexts := [("t", ["x"])] }

/-- A task whose only dependency id matches no task of its project. -/
def ghostTask : Task :=
  { id := "t", project_id := "p", task_type := "x",
    capability := Capability.text, status := TaskStatus.queued,
    dependencies := ["ghost"], input_chain := [], input := Json.null }

/-- Scheduler state holding only `ghostTask`, already queued. -/
def ghostState : SchedState :=
  { tasks := [("p", [ghostTask])]
    projects := [("p", { id := "p", project_type := ProjectType.custom,
                         prompt := "", status := ProjectStatus.queued })]
    queue := ["p:t"]
    active := [] }

/-- Dispatch the queued ghost-dependency task, then complete it. -/
def ghostEvents : List SchedEvent :=
  [SchedEvent.dispatch (some "a"), SchedEvent.taskDone "p" "t"]

/-- A stale-queue state: tasks c and d are both Completed (d depends on
c) and a duplicate queue id "p:c" is still pending.  The code produces
such states: check_for_unblocked_tasks pushes "p:c" for a Blocked c with
met dependencies on every completion it handles, without changing c's
status, so two completion scans push it twice; the first copy is
dispatched and c runs to completion, leaving the second copy behind. -/
def staleState : SchedState :=
  { tasks := [("p",
      [{ ghostTask with id := "c", dependencies := [],
                        status := TaskStatus.completed },
       { ghostTask with id := "d", dependencies := ["c"],
                        status := TaskStatus.completed }])]
    projects := [("p", { id := "p", project_type := ProjectType.custom,
                         prompt := "", status := ProjectStatus.running })]
    queue := ["p:c"]
    active := [] }

/-- Two tasks a <- b where a is queued and b waits on a. -/
def chainState : SchedState :=
  { tasks := [("p",
      [{ ghostTask with id := "a", dependencies := [] },
       { ghostTask with id := "b", dependencies := ["a"],
                        status := TaskStatus.blocked }])]
    projects := [("p", { id := "p", project_type := ProjectType.custom,
                         prompt := "", status := ProjectStatus.queued })]
    queue := ["p:a"]
    active := [] }

/-- A queue whose only entry is a task with an unmet dependency: task a
depends on task b, and b is merely Queued. -/
def starvedState : SchedState :=
  { tasks := [("p",
      [{ ghostTask with id := "a", dependencies := ["b"] },
       { ghostTask with id := "b", dependencies := [] }])]
    projects := [("p", { id := "p", project_type := ProjectType.custom,
                         prompt := "", status := ProjectStatus.queued })]
    queue := ["p:a"]
    active := [] }

/-- A pool state with a live connection for agent "a" but an empty agent
registry (agents_delete removes registry entries without touching pool
connections). -/
def orphanConnState : AgentPoolState :=
  { agents := []
    connections := [("a",
      { agent := { name := "a", capabilities := [Capability.text],
                   enabled := true,
                   health := { status := HealthStatus.healthy, last_check := 0,
                               latency_ms := none, error_rate := 0,
                               success_count := 0, failure_count := 0 },
                   is_local := true, max_concurrent_tasks := 1 }
        active_tasks := [] })]
    tasks := [] }

/-- A registry holding one healthy, connected text agent named "a". -/
def healthyAgent : Agent :=
  { name := "a", capabilities := [Capability.text], enabled := true,
    health := { status := HealthStatus.healthy, last_check := 0,
                latency_ms := none, error_rate := 0,
                success_count := 0, failure_count := 0 },
    is_local := true, max_concurrent_tasks := 1 }

/-- An executor environment whose provider always fails. -/
def failEnv : ExecEnv :=
  { provider := fun _ => Except.error "boom"
    toolApply := fun _ r => Except.ok r
    countTokens := fun _ _ => Except.ok 0
    backoffFuel := 3
    elapsedMs := 1 }

/-- A text task execution with a full context and no prior retries. -/
def fullCtxTask : TaskExecution :=
  { task_id := "t1", preamble := "do it", input := Json.null,
    capability := "text", tool := none, api_key := none, model := none,
    max_retries := none, timeout_secs := none,
    full_context := some (Json.str "ctx"), related_outputs := none,
    retry_count := 0, requires_user_input := false }

/-! # Theorems -/

/-! ## C9 — not-found failures of update_context / remove_context are
atomic -/

/-- C9: for every pool and every id not present in the entry map,
update_context and remove_context return an error and leave the pool
completely unchanged (entries and both indexes identical): not-found
failures are atomic. -/
theorem c9_not_found_atomic (pool : ContextPool) (id : String)
    (content : Json) (now : Int)
    (h : pool.entries.find? (fun e => e.id == id) = none) :
    updateContext pool id content now =
      (pool, Except.error "Context entry not found") ∧
    removeContext pool id = (pool, Except.error "Context entry not found") := by
  unfold updateContext removeContext
  rw [h]
  exact ⟨rfl, rfl⟩

/-- Witness for C9 at the empty pool and id "x". -/
theorem c9_not_found_atomic_witness :
    updateContext ⟨[], [], []⟩ "x" Json.null 0 =
      (⟨[], [], []⟩, Except.error "Context entry not found") ∧
    removeContext ⟨[], [], []⟩ "x" =
      (⟨[], [], []⟩, Except.error "Context entry not found") :=
  c9_not_found_atomic ⟨[], [], []⟩ "x" Json.null 0 rfl

/-! ## C4 — cleanup_expired -/

/-- The entries field of one (error-ignoring) remove_context call is a
filter, whether or not the id is present. -/
theorem removeContext_fst_entries (pool : ContextPool) (id : String) :
    ((removeContext pool id).fst).entries =
      pool.entries.filter (fun e => ¬ (e.id == id)) := by
  unfold removeContext
  cases h : pool.entries.find? (fun e => e.id == id) with
  | none =>
      simp only []
      symm
      apply List.filter_eq_self.mpr
      intro e he
      have := List.find?_eq_none.mp h e he
      simpa using this
  | some entry => rfl

/-- Removal of a list of ids filters the entries by membership. -/
theorem removeMany_entries (ids : List String) (pool : ContextPool) :
    (removeMany pool ids).entries =
      pool.entries.filter (fun e => ¬ ids.contains e.id) := by
  induction ids generalizing pool with
  | nil =>
      simp only [removeMany, List.foldl_nil]
      symm
      apply List.filter_eq_self.mpr
      intro e _
      simp
  | cons i rest ih =>
      have hstep : removeMany pool (i :: rest) =
          removeMany ((removeContext pool i).fst) rest := rfl
      rw [hstep, ih, removeContext_fst_entries, List.filter_filter]
      apply List.filter_congr
      intro e _
      simp only [List.contains_cons]
      cases hei : e.id == i <;> cases hcr : rest.contains e.id <;> simp [hei, hcr]

/-- The entries remaining after cleanup_expired are exactly those whose
expiry test is false — provided ids are HashMap-unique. -/
theorem cleanupExpired_entries (pool : ContextPool) (now : Int)
    (hnodup : (pool.entries.map (·.id)).Nodup) :
    (cleanupExpired pool now).entries =
      pool.entries.filter (fun e => ¬ entryExpired now e) := by
  unfold cleanupExpired
  rw [removeMany_entries]
  apply List.filter_congr
  intro e he
  have hinj := List.inj_on_of_nodup_map hnodup
  have hmem : ((pool.entries.filter (entryExpired now)).map (·.id)).contains e.id
      = entryExpired now e := by
    cases hexp : entryExpired now e with
    | true =>
        have hm : e.id ∈ (pool.entries.filter (entryExpired now)).map (·.id) :=
          List.mem_map_of_mem _ (List.mem_filter.mpr ⟨he, hexp⟩)
        simpa using hm
    | false =>
        apply Bool.eq_false_iff.mpr
        intro hc
        have hm : e.id ∈ (pool.entries.filter (entryExpired now)).map (·.id) := by
          simpa using hc
        rcases List.mem_map.mp hm with ⟨e', he', heq⟩
        rcases List.mem_filter.mp he' with ⟨he'2, hexp'⟩
        have : e' = e := hinj he'2 he heq
        rw [this] at hexp'
        rw [hexp'] at hexp
        cases hexp
  show (decide ¬(((pool.entries.filter (entryExpired now)).map (·.id)).contains e.id = true))
      = (decide ¬(entryExpired now e = true))
  rw [hmem]

/-- The expiry test agrees with the exact age comparison whenever the
entry's age is non-negative and i64-representable. -/
theorem entryExpired_iff (now : Int) (e : ContextEntry)
    (hpast : e.created_at ≤ now) (hrep : now - e.created_at < 2 ^ 64) :
    entryExpired now e = true ↔
      ∃ ttl, e.ttl_seconds = some ttl ∧ (ttl : Int) < now - e.created_at := by
  unfold entryExpired
  cases httl : e.ttl_seconds with
  | none => simp
  | some ttl =>
      have h0 : (0 : Int) ≤ now - e.created_at := by omega
      have hmod : (now - e.created_at) % (2 : Int) ^ 64 = now - e.created_at :=
        Int.emod_eq_of_lt h0 hrep
      unfold asU64
      rw [hmod]
      simp only [decide_eq_true_eq]
      constructor
      · intro h
        exact ⟨ttl, rfl, Int.lt_toNat.mp h⟩
      · rintro ⟨ttl', httl', hlt⟩
        have h := Option.some.inj httl'
        rw [h]
        exact Int.lt_toNat.mpr hlt

/-- cleanup_expired is idempotent: a second run with no time passing
changes nothing at all (entries and both indexes), for every pool. -/
theorem cleanupExpired_idem (pool : ContextPool) (now : Int) :
    cleanupExpired (cleanupExpired pool now) now = cleanupExpired pool now := by
  have h1 : (cleanupExpired pool now).entries =
      pool.entries.filter (fun e =>
        ¬ ((pool.entries.filter (entryExpired now)).map (·.id)).contains e.id) :=
    removeMany_entries _ _
  have hnil : (cleanupExpired pool now).entries.filter (entryExpired now) = [] := by
    rw [h1]
    rw [List.filter_eq_nil_iff]
    intro e he
    rcases List.mem_filter.mp he with ⟨hmem, hok⟩
    intro hexp
    have hcontains : ((pool.entries.filter (entryExpired now)).map (·.id)).contains e.id
        = true := by
      have : e.id ∈ (pool.entries.filter (entryExpired now)).map (·.id) :=
        List.mem_map_of_mem _ (List.mem_filter.mpr ⟨hmem, hexp⟩)
      simpa using this
    exact (of_decide_eq_true hok) hcontains
  show removeMany (cleanupExpired pool now)
      (((cleanupExpired pool now).entries.filter (entryExpired now)).map (·.id)) = _
  rw [hnil]
  rfl

/-- C4 (amended): when every entry's age is non-negative (and
i64-representable) and the entry ids are HashMap-unique, cleanup_expired
removes an entry iff it has a TTL and its age strictly exceeds it —
entries with no TTL are never removed — it only ever removes entries,
and it is idempotent: a second run with no time passing removes nothing.
(As stated over arbitrary created_at the removal condition is wrong: see
the counterexample — `(now - created_at).num_seconds() as u64` wraps a
negative age into a huge unsigned one.) -/
theorem c4_cleanup_expired (pool : ContextPool) (now : Int)
    (hnodup : (pool.entries.map (·.id)).Nodup)
    (hpast : ∀ e ∈ pool.entries,
      e.created_at ≤ now ∧ now - e.created_at < 2 ^ 64) :
    (∀ e ∈ pool.entries,
       (e ∈ (cleanupExpired pool now).entries ↔
         ¬ ∃ ttl, e.ttl_seconds = some ttl ∧ (ttl : Int) < now - e.created_at)) ∧
    (∀ e ∈ (cleanupExpired pool now).entries, e ∈ pool.entries) ∧
    cleanupExpired (cleanupExpired pool now) now = cleanupExpired pool now := by
  refine ⟨?_, ?_, cleanupExpired_idem pool now⟩
  · intro e he
    rw [cleanupExpired_entries pool now hnodup]
    rw [← entryExpired_iff now e (hpast e he).1 (hpast e he).2]
    constructor
    · intro hmem
      rcases List.mem_filter.mp hmem with ⟨_, hok⟩
      simp only [Bool.not_eq_true', decide_eq_true_eq] at hok
      simp [hok]
    · intro hnot
      apply List.mem_filter.mpr
      refine ⟨he, ?_⟩
      simp only [Bool.not_eq_true', decide_eq_true_eq]
      simpa using hnot
  · intro e he
    rw [cleanupExpired_entries pool now hnodup] at he
    exact (List.mem_filter.mp he).1

/-- Witness for C4 at a two-entry pool probed at time 10: the entry with
TTL 5 created at time 0 goes, the TTL-less entry stays, and a second run
is a no-op. -/
theorem c4_cleanup_expired_witness :
    (∀ e ∈ (ContextPool.mk
        [{ baseEntry with id := "a", references := [], ttl_seconds := some 5 },
         { baseEntry with id := "b", references := [], ttl_seconds := none }]
        [] []).entries,
       (e ∈ (cleanupExpired (ContextPool.mk
        [{ baseEntry with id := "a", references := [], ttl_seconds := some 5 },
         { baseEntry with id := "b", references := [], ttl_seconds := none }]
        [] []) 10).entries ↔
         ¬ ∃ ttl, e.ttl_seconds = some ttl ∧ (ttl : Int) < 10 - e.created_at)) ∧
    (∀ e ∈ (cleanupExpired (ContextPool.mk
        [{ baseEntry with id := "a", references := [], ttl_seconds := some 5 },
         { baseEntry with id := "b", references := [], ttl_seconds := none }]
        [] []) 10).entries, e ∈ (ContextPool.mk
        [{ baseEntry with id := "a", references := [], ttl_seconds := some 5 },
         { baseEntry with id := "b", references := [], ttl_seconds := none }]
        [] []).entries) ∧
    cleanupExpired (cleanupExpired (ContextPool.mk
        [{ baseEntry with id := "a", references := [], ttl_seconds := some 5 },
         { baseEntry with id := "b", references := [], ttl_seconds := none }]
        [] []) 10) 10 = cleanupExpired (ContextPool.mk
        [{ baseEntry with id := "a", references := [], ttl_seconds := some 5 },
         { baseEntry with id := "b", references := [], ttl_seconds := none }]
        [] []) 10 :=
  c4_cleanup_expired _ 10 (by decide) (by decide)

/-- C4 counterexample: the pool holds one entry with TTL 5 whose
created_at (second 1) lies after the probe time 0.  Its age
`now - created_at = -1` does not exceed the TTL, yet cleanup_expired
removes it (the `as u64` cast wraps -1 to 2^64 - 1): the claimed
removal condition is false at this input. -/
theorem c4_cleanup_expired_counterexample :
    (cleanupExpired futurePool 0).entries = [] ∧
    futurePool.entries.map (·.id) = ["x"] ∧
    (∀ e ∈ futurePool.entries, e.ttl_seconds = some 5 ∧
      ¬ ((0 : Int) - e.created_at > (5 : Nat))) := by
  refine ⟨rfl, rfl, ?_⟩
  intro e he
  fin_cases he
  exact ⟨rfl, by decide⟩

/-! ## C5 — shredding a CodingProject -/

/-- C5: for every project of type CodingProject and every prompt,
shred_project returns exactly 6 tasks with pairwise-distinct fresh ids
whose dependency edges point only at earlier stages (hence form a DAG),
connect all six stages into a single weak component, and end in a single
final "review" task depending on exactly the "unit_testing" and
"documentation" tasks. -/
theorem c5_shred_coding_dag (p : Project) (now : Int)
    (h : p.project_type = ProjectType.codingProject) :
    (shredProject p now).length = 6 ∧
    ((shredProject p now).map (·.id)).Nodup ∧
    depsPointEarlier ((shredProject p now).map tsig) = true ∧
    sigConnected ((shredProject p now).map tsig) = true ∧
    reviewFinalOK ((shredProject p now).map tsig) = true := by
  have hs : shredProject p now = shredCodingProject p now := by
    unfold shredProject
    rw [h]
  have hsig : (shredCodingProject p now).map tsig =
      [("task-0", "architecture", []), ("task-1", "module_planning", ["task-0"]),
       ("task-2", "core_implementation", ["task-1"]),
       ("task-3", "unit_testing", ["task-2"]),
       ("task-4", "documentation", ["task-2"]),
       ("task-5", "review", ["task-3", "task-4"])] := rfl
  have hids : (shredCodingProject p now).map (·.id) =
      ["task-0", "task-1", "task-2", "task-3", "task-4", "task-5"] := rfl
  refine ⟨?_, ?_, ?_, ?_, ?_⟩ <;> rw [hs]
  · rfl
  · rw [hids]
    decide
  · rw [hsig]
    decide
  · rw [hsig]
    decide
  · rw [hsig]
    decide

/-- Witness for C5 at a concrete coding project. -/
theorem c5_shred_coding_dag_witness :
    (shredProject codingProj 0).length = 6 ∧
    ((shredProject codingProj 0).map (·.id)).Nodup ∧
    depsPointEarlier ((shredProject codingProj 0).map tsig) = true ∧
    sigConnected ((shredProject codingProj 0).map tsig) = true ∧
    reviewFinalOK ((shredProject codingProj 0).map tsig) = true :=
  c5_shred_coding_dag codingProj 0 rfl

/-! ## C6 — input_chain versus full ancestry -/

/-- C6 counterexample: for a concrete CodingProject the claimed property
"every task's input_chain contains its full ancestry" is false — the
final review task has ancestry but an empty input_chain. -/
theorem c6_input_chain_counterexample :
    inputChainContainsAncestry (shredProject codingProj 0) = false ∧
    (∃ t ∈ shredProject codingProj 0, t.task_type = "review" ∧
      t.input_chain = [] ∧ t.dependencies = ["task-3", "task-4"]) := by
  refine ⟨rfl, ?_⟩
  exact ⟨(shredProject codingProj 0).get ⟨5, by decide⟩, List.get_mem _ _ _, rfl, rfl, rfl⟩

/-- C6 (amended): a task built by the generic create_task helper has an
input_chain equal to its direct dependency list (not its full ancestry),
and the hand-built CodingProject stages carry these input_chains —
empty for architecture and for the final review stage, and the full
ancestry only for the module_planning, core_implementation and
documentation stages. -/
theorem c6_input_chain (p : Project) (now : Int) :
    (∀ (n : Nat) (task_type : String) (cap : Capability)
       (deps : List String) (pre : String) (tl : Nat) (prio : Option Int),
       (createTask p n task_type cap deps pre tl prio now).input_chain = deps) ∧
    (shredCodingProject p now).map (fun t => (t.task_type, t.input_chain)) =
      [("architecture", []), ("module_planning", ["task-0"]),
       ("core_implementation", ["task-0", "task-1"]),
       ("unit_testing", ["task-2"]),
       ("documentation", ["task-0", "task-1", "task-2"]),
       ("review", [])] :=
  ⟨fun _ _ _ _ _ _ _ => rfl, rfl⟩

/-! ## C7 — termination of a process_queue pass -/

/-- C7: the process_queue while-loop never finishes on a queue whose
only entry is a task with an unmet dependency — the head is popped,
pushed back to the tail and popped again, forever (`none` means the pass
did not finish within `fuel` iterations, for every fuel).  This
contradicts the specified termination of a single queue-advance pass, so
the pass starves exactly where the spec promises it does not. -/
theorem c7_process_queue_starves
    (fuel : Nat) (findAgent : SchedState → String → String → Option String)
    (now : Int) :
    processQueue findAgent now fuel starvedState = none := by
  have hiter : ∀ f n, processIter f n starvedState = IterOutcome.cont starvedState := by
    intro f n
    rfl
  have hloop : ∀ fl, processLoop findAgent now fl starvedState = none := by
    intro fl
    induction fl with
    | zero => rfl
    | succ k ih =>
        show processLoop findAgent now (k + 1) starvedState = none
        unfold processLoop
        rw [hiter]
        exact ih
  show processQueue findAgent now fuel starvedState = none
  unfold processQueue
  rw [if_neg (by decide)]
  exact hloop fuel

/-! ## C8 — health thresholds and routing exclusion -/

/-- The exact counter ratio recomputed by a health update. -/
def recomputedRate (a : Agent) (is_success : Bool) : Rat :=
  let s := a.health.success_count + (if is_success then 1 else 0)
  let f := a.health.failure_count + (if is_success then 0 else 1)
  (f : Rat) / ((s : Rat) + (f : Rat))

/-- A health update splits the registry at the first agent with the
name: everything before it has a different name and is untouched,
everything after it is untouched. -/
theorem updateAgentHealth_split (agents : List Agent) (name : String)
    (is_success : Bool) (lat : Nat) (now : Int) (a : Agent)
    (h : agents.find? (fun x => x.name == name) = some a) :
    ∃ pre post, agents = pre ++ a :: post ∧
      (∀ b ∈ pre, (b.name == name) = false) ∧
      updateAgentHealth agents name is_success lat now =
        pre ++ applyHealthUpdate a is_success lat now :: post := by
  induction agents with
  | nil => cases h
  | cons x rest ih =>
      cases hx : (x.name == name) with
      | true =>
          have hxa : x = a := by
            have h2 : some x = some a := by
              rw [← h]
              simp [List.find?_cons_of_pos, hx]
            exact Option.some.inj h2
          refine ⟨[], rest, ?_, ?_, ?_⟩
          · rw [hxa]; rfl
          · intro b hb; cases hb
          · show (if (x.name == name) = true then _ else _) = _
            rw [if_pos hx, hxa]
            rfl
      | false =>
          have h' : rest.find? (fun x => x.name == name) = some a := by
            rw [← h]
            symm
            simp [List.find?_cons_of_neg, hx]
          rcases ih h' with ⟨pre, post, hsplit, hpre, hupd⟩
          refine ⟨x :: pre, post, by rw [hsplit]; rfl, ?_, ?_⟩
          · intro b hb
            rcases List.mem_cons.mp hb with hb | hb
            · rw [hb]; exact hx
            · exact hpre b hb
          · show (if (x.name == name) = true then _ else _) = _
            rw [if_neg (by simp [hx]), hupd]
            rfl

/-- find? skips a block of agents none of which carries the name. -/
theorem find?_name_append (pre rest : List Agent) (name : String)
    (hpre : ∀ b ∈ pre, (b.name == name) = false) :
    (pre ++ rest).find? (fun x => x.name == name) =
      rest.find? (fun x => x.name == name) := by
  induction pre with
  | nil => rfl
  | cons y ys ih =>
      have hy := hpre y (List.mem_cons_self y ys)
      show List.find? _ (y :: (ys ++ rest)) = _
      rw [show List.find? (fun x => x.name == name) (y :: (ys ++ rest)) =
          List.find? (fun x => x.name == name) (ys ++ rest) by
        simp [List.find?_cons_of_neg, hy]]
      exact ih (fun b hb => hpre b (List.mem_cons_of_mem y hb))

/-- The updated registry resolves the name to the updated agent. -/
theorem updateAgentHealth_find (agents : List Agent) (name : String)
    (is_success : Bool) (lat : Nat) (now : Int) (a : Agent)
    (h : agents.find? (fun x => x.name == name) = some a) :
    (updateAgentHealth agents name is_success lat now).find?
        (fun x => x.name == name) = some (applyHealthUpdate a is_success lat now) := by
  rcases updateAgentHealth_split agents name is_success lat now a h with
    ⟨pre, post, _, hpre, hupd⟩
  rw [hupd, find?_name_append pre _ name hpre]
  have hp : ((applyHealthUpdate a is_success lat now).name == name) = true := by
    have hpa := List.find?_some h
    have : (applyHealthUpdate a is_success lat now).name = a.name := rfl
    rw [this]
    simpa using hpa
  simp [List.find?_cons_of_pos, hp]

/-- The health update recomputes the error rate exactly. -/
theorem applyHealthUpdate_rate (a : Agent) (is_success : Bool) (lat : Nat)
    (now : Int) :
    (applyHealthUpdate a is_success lat now).health.error_rate =
      recomputedRate a is_success := by
  cases is_success <;> rfl

/-- The health update leaves the counters at +1 on exactly one side. -/
theorem applyHealthUpdate_counters (a : Agent) (is_success : Bool)
    (lat : Nat) (now : Int) :
    (is_success = true →
      (applyHealthUpdate a is_success lat now).health.success_count =
        a.health.success_count + 1 ∧
      (applyHealthUpdate a is_success lat now).health.failure_count =
        a.health.failure_count) ∧
    (is_success = false →
      (applyHealthUpdate a is_success lat now).health.success_count =
        a.health.success_count ∧
      (applyHealthUpdate a is_success lat now).health.failure_count =
        a.health.failure_count + 1) := by
  cases is_success <;> simp [applyHealthUpdate]

/-- The status written by the health update follows the 0.5 / 0.1
thresholds on the recomputed rate. -/
theorem applyHealthUpdate_status (a : Agent) (is_success : Bool) (lat : Nat)
    (now : Int) :
    ((applyHealthUpdate a is_success lat now).health.status =
        HealthStatus.unhealthy ↔ recomputedRate a is_success > (1 : Rat) / 2) ∧
    ((applyHealthUpdate a is_success lat now).health.status =
        HealthStatus.degraded ↔
      (recomputedRate a is_success > (1 : Rat) / 10 ∧
       ¬ recomputedRate a is_success > (1 : Rat) / 2)) ∧
    ((applyHealthUpdate a is_success lat now).health.status =
        HealthStatus.healthy ↔ ¬ recomputedRate a is_success > (1 : Rat) / 10) := by
  have hrate : (applyHealthUpdate a is_success lat now).health.error_rate =
      recomputedRate a is_success := applyHealthUpdate_rate a is_success lat now
  have hstatus : (applyHealthUpdate a is_success lat now).health.status =
      (if (applyHealthUpdate a is_success lat now).health.error_rate > (1 : Rat) / 2
        then HealthStatus.unhealthy
        else if (applyHealthUpdate a is_success lat now).health.error_rate > (1 : Rat) / 10
          then HealthStatus.degraded
          else HealthStatus.healthy) := by
    cases is_success <;> rfl
  rw [hstatus, hrate]
  by_cases h2 : recomputedRate a is_success > (1 : Rat) / 2
  · rw [if_pos h2]
    exact ⟨iff_of_true rfl h2,
           iff_of_false (by simp) (fun hc => hc.2 h2),
           iff_of_false (by simp) (fun hc => hc (lt_trans (by norm_num) h2))⟩
  · rw [if_neg h2]
    by_cases h10 : recomputedRate a is_success > (1 : Rat) / 10
    · rw [if_pos h10]
      exact ⟨iff_of_false (by simp) (fun hc => h2 hc),
             iff_of_true rfl ⟨h10, h2⟩,
             iff_of_false (by simp) (fun hc => hc h10)⟩
    · rw [if_neg h10]
      exact ⟨iff_of_false (by simp) (fun hc => h2 hc),
             iff_of_false (by simp) (fun hc => h10 hc.1),
             iff_of_true rfl h10⟩

/-- C8: after a health update of a registered agent (names unique as the
registry keeps them), the agent's status is Unhealthy iff the recomputed
error_rate = failures/(successes+failures) exceeds 0.5, Degraded iff it
exceeds 0.1 but not 0.5, and Healthy otherwise; and whenever the rate
crosses 0.5 the agent is excluded from get_available_agents (for every
capability and connection map) on that very update. -/
theorem c8_health_status (agents : List Agent) (name : String)
    (is_success : Bool) (lat : Nat) (now : Int) (a : Agent)
    (hfind : agents.find? (fun x => x.name == name) = some a)
    (hnodup : (agents.map (·.name)).Nodup) :
    ∃ a', (updateAgentHealth agents name is_success lat now).find?
            (fun x => x.name == name) = some a' ∧
      a'.health.error_rate = recomputedRate a is_success ∧
      (a'.health.status = HealthStatus.unhealthy ↔
        recomputedRate a is_success > (1 : Rat) / 2) ∧
      (a'.health.status = HealthStatus.degraded ↔
        (recomputedRate a is_success > (1 : Rat) / 10 ∧
         ¬ recomputedRate a is_success > (1 : Rat) / 2)) ∧
      (a'.health.status = HealthStatus.healthy ↔
        ¬ recomputedRate a is_success > (1 : Rat) / 10) ∧
      (recomputedRate a is_success > (1 : Rat) / 2 →
        ∀ (conns : List (String × AgentConnection))
          (tasks : List (String × List Task)) (cap : Capability),
          name ∉ getAvailableAgents
            ⟨updateAgentHealth agents name is_success lat now, conns, tasks⟩ cap) := by
  refine ⟨applyHealthUpdate a is_success lat now,
    updateAgentHealth_find agents name is_success lat now a hfind,
    applyHealthUpdate_rate a is_success lat now,
    (applyHealthUpdate_status a is_success lat now).1,
    (applyHealthUpdate_status a is_success lat now).2.1,
    (applyHealthUpdate_status a is_success lat now).2.2, ?_⟩
  intro hrate conns tasks cap hmem
  rcases updateAgentHealth_split agents name is_success lat now a hfind with
    ⟨pre, post, hsplit, hpre, hupd⟩
  unfold getAvailableAgents at hmem
  rcases List.mem_map.mp hmem with ⟨b, hb, hbname⟩
  rcases List.mem_filter.mp hb with ⟨hbmem, hbpred⟩
  rw [hupd] at hbmem
  have hnames : a.name = name := by
    have := List.find?_some hfind
    simpa using this
  rcases List.mem_append.mp hbmem with hbpre | hbrest
  · have := hpre b hbpre
    rw [hbname] at this
    simp at this
  · rcases List.mem_cons.mp hbrest with hbeq | hbpost
    · have hunh : b.health.status = HealthStatus.unhealthy := by
        rw [hbeq]
        exact (applyHealthUpdate_status a is_success lat now).1.mpr hrate
      rw [hunh] at hbpred
      simp at hbpred
    · -- a duplicate of the (unique) name after the updated agent
      rw [hsplit] at hnodup
      have hanot : a.name ∉ post.map (·.name) := by
        have := List.nodup_append.mp (by simpa using hnodup)
        have h2 := this.2.1
        simp only [List.map_cons, List.nodup_cons] at h2
        exact h2.1
      exact hanot (by
        rw [hnames, ← hbname]
        exact List.mem_map_of_mem _ hbpost)

/-- Witness for C8: one healthy agent failing a call — the rate becomes
1, the status flips to Unhealthy, and the agent is excluded. -/
theorem c8_health_status_witness :
    ∃ a', (updateAgentHealth [healthyAgent] "a" false 7 3).find?
            (fun x => x.name == "a") = some a' ∧
      a'.health.error_rate = recomputedRate healthyAgent false ∧
      (a'.health.status = HealthStatus.unhealthy ↔
        recomputedRate healthyAgent false > (1 : Rat) / 2) ∧
      (a'.health.status = HealthStatus.degraded ↔
        (recomputedRate healthyAgent false > (1 : Rat) / 10 ∧
         ¬ recomputedRate healthyAgent false > (1 : Rat) / 2)) ∧
      (a'.health.status = HealthStatus.healthy ↔
        ¬ recomputedRate healthyAgent false > (1 : Rat) / 10) ∧
      (recomputedRate healthyAgent false > (1 : Rat) / 2 →
        ∀ (conns : List (String × AgentConnection))
          (tasks : List (String × List Task)) (cap : Capability),
          "a" ∉ getAvailableAgents
            ⟨updateAgentHealth [healthyAgent] "a" false 7 3, conns, tasks⟩ cap) :=
  c8_health_status [healthyAgent] "a" false 7 3 healthyAgent rfl (by decide)

/-! ## C10 — execute_task load and health accounting -/

/-- Keyed in-place mutation of an association list leaves lookups of the
key mapped and other entries untouched. -/
theorem alistGet_mapIf {α : Type} (m : List (String × α)) (k : String)
    (f : α → α) :
    alistGet (m.map (fun c => if c.fst == k then (c.fst, f c.snd) else c)) k
      = (alistGet m k).map f := by
  induction m with
  | nil => rfl
  | cons c rest ih =>
      cases hc : (c.fst == k) with
      | true =>
          unfold alistGet
          rw [List.map_cons, if_pos hc]
          rw [show List.find? (fun p => p.fst == k) ((c.fst, f c.snd) :: _)
              = some (c.fst, f c.snd) by simp [List.find?_cons_of_pos, hc]]
          rw [show List.find? (fun p => p.fst == k) (c :: rest) = some c by
            simp [List.find?_cons_of_pos, hc]]
          rfl
      | false =>
          unfold alistGet
          rw [List.map_cons, if_neg (by simp [hc])]
          rw [show List.find? (fun p => p.fst == k)
                (c :: rest.map (fun c => if c.fst == k then (c.fst, f c.snd) else c))
              = List.find? (fun p => p.fst == k)
                  (rest.map (fun c => if c.fst == k then (c.fst, f c.snd) else c)) by
            simp [List.find?_cons_of_neg, hc]]
          rw [show List.find? (fun p => p.fst == k) (c :: rest)
              = List.find? (fun p => p.fst == k) rest by
            simp [List.find?_cons_of_neg, hc]]
          exact ih

/-- C10 (amended): for every agent connection whose agent is also present
in the agent registry, after execute_task returns — whether the agent is
local, the remote call produced a structured success or failure, or it
errored — the task's id is no longer in that agent's active_tasks list,
and exactly one of the registry agent's health success/failure counters
was incremented exactly once; agents with other names are untouched. -/
theorem c10_execute_task_accounting (st : AgentPoolState) (name : String)
    (task : Task) (remoteOutcome : Except String AgentResponse)
    (lat : Nat) (now : Int) (conn : AgentConnection) (a : Agent)
    (hconn : alistGet st.connections name = some conn)
    (hagent : st.agents.find? (fun x => x.name == name) = some a) :
    (∀ c', alistGet (poolExecuteTask st name task remoteOutcome lat now).fst.connections
        name = some c' → task.id ∉ c'.active_tasks) ∧
    (∃ a', (poolExecuteTask st name task remoteOutcome lat now).fst.agents.find?
        (fun x => x.name == name) = some a' ∧
      ((a'.health.success_count = a.health.success_count + 1 ∧
        a'.health.failure_count = a.health.failure_count) ∨
       (a'.health.success_count = a.health.success_count ∧
        a'.health.failure_count = a.health.failure_count + 1))) ∧
    (∀ b ∈ st.agents, (b.name == name) = false →
      b ∈ (poolExecuteTask st name task remoteOutcome lat now).fst.agents) := by
  have hfst : (poolExecuteTask st name task remoteOutcome lat now).fst =
      { st with
        connections := (st.connections.map (fun c =>
            if c.fst == name then (c.fst, connPushActive task.id c.snd)
            else c)).map (fun c =>
            if c.fst == name then (c.fst, connRetainActive task.id c.snd)
            else c)
        agents := updateAgentHealth st.agents name
          (match (if conn.agent.is_local
                  then Except.ok (executeLocalTask
                    { task_id := task.id, task_type := task.task_type,
                      capability := task.capability, input := task.input,
                      preamble := task.preamble.getD "",
                      token_limit := task.token_limit,
                      context := buildTaskContext st.tasks task })
                  else remoteOutcome) with
           | Except.ok r => r.success
           | Except.error _ => false) lat now } := by
    unfold poolExecuteTask
    rw [hconn]
  refine ⟨?_, ?_, ?_⟩
  · intro c' hc'
    rw [hfst] at hc'
    simp only at hc'
    rw [alistGet_mapIf _ name (connRetainActive task.id),
        alistGet_mapIf _ name (connPushActive task.id), hconn] at hc'
    have hc'eq : c' = connRetainActive task.id (connPushActive task.id conn) := 
      (Option.some.inj hc').symm
    rw [hc'eq]
    intro hmem
    have := (List.mem_filter.mp hmem).2
    simp at this
  · rw [hfst]
    simp only []
    refine ⟨applyHealthUpdate a _ lat now,
      updateAgentHealth_find st.agents name _ lat now a hagent, ?_⟩
    cases hs : (match (if conn.agent.is_local
                  then Except.ok (executeLocalTask
                    { task_id := task.id, task_type := task.task_type,
                      capability := task.capability, input := task.input,
                      preamble := task.preamble.getD "",
                      token_limit := task.token_limit,
                      context := buildTaskContext st.tasks task })
                  else remoteOutcome) with
           | Except.ok r => r.success
           | Except.error _ => false) with
    | true =>
        exact Or.inl ((applyHealthUpdate_counters a true lat now).1 rfl)
    | false =>
        exact Or.inr ((applyHealthUpdate_counters a false lat now).2 rfl)
  · intro b hb hbname
    rw [hfst]
    simp only []
    rcases updateAgentHealth_split st.agents name _ lat now a hagent with
      ⟨pre, post, hsplit, hpre, hupd⟩
    rw [hupd]
    rw [hsplit] at hb
    rcases List.mem_append.mp hb with hbl | hbr
    · exact List.mem_append.mpr (Or.inl hbl)
    · rcases List.mem_cons.mp hbr with hbeq | hbpost
      · exfalso
        have hnames : a.name = name := by
          have := List.find?_some hagent
          simpa using this
        rw [hbeq] at hbname
        rw [hnames] at hbname
        simp at hbname
      · exact List.mem_append.mpr (Or.inr (List.mem_cons_of_mem _ hbpost))

/-- Witness for C10: a local agent "a" (also registered) runs a task;
the slot is freed and one counter moves. -/
theorem c10_execute_task_accounting_witness :
    (∀ c', alistGet (poolExecuteTask
        ⟨[healthyAgent], [("a", ⟨healthyAgent, []⟩)], []⟩ "a" ghostTask
        (Except.error "down") 4 9).fst.connections "a" = some c' →
      ghostTask.id ∉ c'.active_tasks) ∧
    (∃ a', (poolExecuteTask
        ⟨[healthyAgent], [("a", ⟨healthyAgent, []⟩)], []⟩ "a" ghostTask
        (Except.error "down") 4 9).fst.agents.find?
        (fun x => x.name == "a") = some a' ∧
      ((a'.health.success_count = healthyAgent.health.success_count + 1 ∧
        a'.health.failure_count = healthyAgent.health.failure_count) ∨
       (a'.health.success_count = healthyAgent.health.success_count ∧
        a'.health.failure_count = healthyAgent.health.failure_count + 1))) ∧
    (∀ b ∈ ([healthyAgent] : List Agent), (b.name == "a") = false →
      b ∈ (poolExecuteTask
        ⟨[healthyAgent], [("a", ⟨healthyAgent, []⟩)], []⟩ "a" ghostTask
        (Except.error "down") 4 9).fst.agents) :=
  c10_execute_task_accounting
    ⟨[healthyAgent], [("a", ⟨healthyAgent, []⟩)], []⟩ "a" ghostTask
    (Except.error "down") 4 9 ⟨healthyAgent, []⟩ healthyAgent rfl rfl

/-- C10 counterexample: the pool holds a live connection for agent "a",
but the registry (state.agents) is empty — reachable because
agents_delete drops only the registry entry.  execute_task then completes
without incrementing any health counter: there is no agent record at all
whose counters could have moved, refuting the claim as stated for every
agent connection. -/
theorem c10_execute_task_accounting_counterexample :
    (alistGet orphanConnState.connections "a").isSome = true ∧
    orphanConnState.agents = [] ∧
    (poolExecuteTask orphanConnState "a" ghostTask (Except.error "down")
      4 9).fst.agents = [] ∧
    ¬ ∃ a', (poolExecuteTask orphanConnState "a" ghostTask
        (Except.error "down") 4 9).fst.agents.find?
          (fun x => x.name == "a") = some a' := by
  refine ⟨rfl, rfl, rfl, ?_⟩
  rintro ⟨a', ha'⟩
  rw [show (poolExecuteTask orphanConnState "a" ghostTask (Except.error "down")
      4 9).fst.agents = [] from rfl] at ha'
  cases ha'

/-! ## C2 — the retry law of the task-execution primitive -/

/-- C2: for every environment and every TaskExecution with
retry_count = 0 and a full context present, if the first (sliced-context)
attempt falls through the success guard, execute_task makes exactly one
further attempt — with use_full_context set and the preamble annotated as
retry attempt 2 — and if that attempt also fails it returns success =
false with needs_user_input = true after exactly those two attempts;
no third attempt happens on this path. -/
theorem c2_retry_law (env : ExecEnv) (task : TaskExecution)
    (h0 : task.retry_count = 0)
    (hfc : task.full_context.isSome = true)
    (hfail1 : attemptFailed (executeWithContext env 0 task false) = true)
    (hfail2 : attemptFailed (executeWithContext env 1
        { task with retry_count := task.retry_count + 1 } true) = true) :
    ∃ res, executeTask env task = (Except.ok res,
        [(buildEnhancedTask task false, false),
         (buildEnhancedTask { task with retry_count := task.retry_count + 1 }
            true, true)]) ∧
      res.success = false ∧
      res.needs_user_input = true ∧
      (buildEnhancedTask { task with retry_count := task.retry_count + 1 }
          true).preamble = task.preamble ++ retryNote 2 := by
  have hcond : (task.full_context.isSome ∧ task.retry_count == 0) := by
    refine ⟨hfc, ?_⟩
    rw [h0]
    rfl
  have hno1 : ((executeWithContext env 0 task false).toOption.any
      (fun res => res.success)) = false := by
    cases hr : executeWithContext env 0 task false with
    | ok r =>
        rw [hr] at hfail1
        have hrs : r.success = false := by
          simpa [attemptFailed] using hfail1
        simp [Except.toOption, hrs]
    | error e => simp [Except.toOption]
  have hno2 : ((executeWithContext env 1
      { task with retry_count := task.retry_count + 1 } true).toOption.any
      (fun res => res.success)) = false := by
    cases hr : executeWithContext env 1
        { task with retry_count := task.retry_count + 1 } true with
    | ok r =>
        rw [hr] at hfail2
        have hrs : r.success = false := by
          simpa [attemptFailed] using hfail2
        simp [Except.toOption, hrs]
    | error e => simp [Except.toOption]
  refine ⟨{ success := false, output := none,
            error := some "Task failed after multiple attempts. User input required for clarification.",
            tool_output := none, tokens_used := none,
            execution_time_ms := some env.elapsedMs,
            needs_user_input := true,
            retry_strategy := some "exhausted" }, ?_, rfl, rfl, ?_⟩
  · simp only [executeTask]
    rw [hno1]
    rw [if_neg (by decide)]
    rw [if_pos hcond]
    rw [if_pos hcond]
    dsimp only []
    rw [hno2]
    rw [if_neg (by decide)]
    rfl
  · rw [h0]
    unfold buildEnhancedTask
    rw [if_pos ⟨rfl, hfc⟩]

/-- Witness for C2: a concrete text task with full context against an
always-failing provider. -/
theorem c2_retry_law_witness :
    ∃ res, executeTask failEnv fullCtxTask = (Except.ok res,
        [(buildEnhancedTask fullCtxTask false, false),
         (buildEnhancedTask
            { fullCtxTask with retry_count := fullCtxTask.retry_count + 1 }
            true, true)]) ∧
      res.success = false ∧
      res.needs_user_input = true ∧
      (buildEnhancedTask
          { fullCtxTask with retry_count := fullCtxTask.retry_count + 1 }
          true).preamble = fullCtxTask.preamble ++ retryNote 2 :=
  c2_retry_law failEnv fullCtxTask rfl rfl rfl rfl

/-! ## C1 — the dependency invariant -/

/-- Resolving an id against the singly-mutated task list: only the
mutated id resolves differently, to the mutated task. -/
theorem find?_updateFirstTask (pts : List Task) (tid : String)
    (f : Task → Task) (d : String) (hid : ∀ t, (f t).id = t.id) :
    (updateFirstTask pts tid f).find? (fun x => x.id == d) =
      if d = tid then (pts.find? (fun x => x.id == tid)).map f
      else pts.find? (fun x => x.id == d) := by
  induction pts with
  | nil =>
      unfold updateFirstTask
      cases hd : decide (d = tid) <;> simp
  | cons t rest ih =>
      unfold updateFirstTask
      cases htid : (t.id == tid) with
      | true =>
          rw [if_pos rfl]
          have htide : t.id = tid := by simpa using htid
          by_cases hd : d = tid
          · rw [if_pos hd]
            have hp : ((f t).id == d) = true := by
              rw [hid t, htide, hd]
              simp
            rw [show List.find? (fun x => x.id == d) (f t :: rest) = some (f t) by
              simp [List.find?_cons_of_pos, hp]]
            rw [show List.find? (fun x => x.id == tid) (t :: rest) = some t by
              simp [List.find?_cons_of_pos, htid]]
            rfl
          · rw [if_neg hd]
            have hp : ((f t).id == d) = false := by
              rw [hid t, htide]
              simp
              intro h
              exact hd h.symm
            have hp2 : (t.id == d) = false := by
              rw [htide]
              simp
              intro h
              exact hd h.symm
            rw [show List.find? (fun x => x.id == d) (f t :: rest)
                = List.find? (fun x => x.id == d) rest by
              simp [List.find?_cons_of_neg, hp]]
            rw [show List.find? (fun x => x.id == d) (t :: rest)
                = List.find? (fun x => x.id == d) rest by
              simp [List.find?_cons_of_neg, hp2]]
      | false =>
          rw [if_neg (by simp)]
          by_cases hd : d = tid
          · rw [if_pos hd]
            have hp2 : (t.id == d) = false := by
              rw [hd]
              exact htid
            rw [show List.find? (fun x => x.id == d) (t :: updateFirstTask rest tid f)
                = List.find? (fun x => x.id == d) (updateFirstTask rest tid f) by
              simp [List.find?_cons_of_neg, hp2]]
            rw [show List.find? (fun x => x.id == tid) (t :: rest)
                = List.find? (fun x => x.id == tid) rest by
              simp [List.find?_cons_of_neg, htid]]
            rw [ih, if_pos hd]
          · rw [if_neg hd]
            cases hp2 : (t.id == d) with
            | true =>
                rw [show List.find? (fun x => x.id == d) (t :: updateFirstTask rest tid f)
                    = some t by simp [List.find?_cons_of_pos, hp2]]
                rw [show List.find? (fun x => x.id == d) (t :: rest) = some t by
                  simp [List.find?_cons_of_pos, hp2]]
            | false =>
                rw [show List.find? (fun x => x.id == d) (t :: updateFirstTask rest tid f)
                    = List.find? (fun x => x.id == d) (updateFirstTask rest tid f) by
                  simp [List.find?_cons_of_neg, hp2]]
                rw [show List.find? (fun x => x.id == d) (t :: rest)
                    = List.find? (fun x => x.id == d) rest by
                  simp [List.find?_cons_of_neg, hp2]]
                rw [ih, if_neg hd]

/-- Membership in the singly-mutated task list. -/
theorem mem_updateFirstTask (pts : List Task) (tid : String) (f : Task → Task) :
    ∀ t' ∈ updateFirstTask pts tid f,
      t' ∈ pts ∨ ∃ t, pts.find? (fun x => x.id == tid) = some t ∧ t' = f t := by
  induction pts with
  | nil =>
      intro t' ht'
      cases ht'
  | cons t rest ih =>
      intro t' ht'
      unfold updateFirstTask at ht'
      cases htid : (t.id == tid) with
      | true =>
          rw [if_pos htid] at ht'
          rcases List.mem_cons.mp ht' with h | h
          · right
            exact ⟨t, by simp [List.find?_cons_of_pos, htid], h⟩
          · left
            exact List.mem_cons_of_mem t h
      | false =>
          rw [if_neg (by simp [htid])] at ht'
          rcases List.mem_cons.mp ht' with h | h
          · left
            rw [h]
            exact List.mem_cons_self t rest
          · rcases ih t' h with h2 | ⟨t2, hfind, heq⟩
            · left
              exact List.mem_cons_of_mem t h2
            · right
              refine ⟨t2, ?_, heq⟩
              rw [show List.find? (fun x => x.id == tid) (t :: rest)
                  = List.find? (fun x => x.id == tid) rest by
                simp [List.find?_cons_of_neg, htid]]
              exact hfind

/-- Keyed mutation leaves lookups of other keys untouched. -/
theorem alistGet_mapIf_ne {α : Type} (m : List (String × α)) (k k' : String)
    (f : α → α) (h : k' ≠ k) :
    alistGet (m.map (fun c => if c.fst == k then (c.fst, f c.snd) else c)) k'
      = alistGet m k' := by
  induction m with
  | nil => rfl
  | cons c rest ih =>
      cases hc : (c.fst == k) with
      | true =>
          unfold alistGet
          rw [List.map_cons, if_pos hc]
          have hc' : (c.fst == k') = false := by
            have : c.fst = k := by simpa using hc
            rw [this]
            simp
            intro h2
            exact h h2.symm
          rw [show List.find? (fun p => p.fst == k') ((c.fst, f c.snd) :: _)
              = List.find? (fun p => p.fst == k') (rest.map
                (fun c => if c.fst == k then (c.fst, f c.snd) else c)) by
            simp [List.find?_cons_of_neg, hc']]
          rw [show List.find? (fun p => p.fst == k') (c :: rest)
              = List.find? (fun p => p.fst == k') rest by
            simp [List.find?_cons_of_neg, hc']]
          exact ih
      | false =>
          unfold alistGet
          rw [List.map_cons, if_neg (by simp [hc])]
          cases hc' : (c.fst == k') with
          | true =>
              rw [show List.find? (fun p => p.fst == k') (c :: rest.map
                    (fun c => if c.fst == k then (c.fst, f c.snd) else c))
                  = some c by simp [List.find?_cons_of_pos, hc']]
              rw [show List.find? (fun p => p.fst == k') (c :: rest) = some c by
                simp [List.find?_cons_of_pos, hc']]
          | false =>
              rw [show List.find? (fun p => p.fst == k') (c :: rest.map
                    (fun c => if c.fst == k then (c.fst, f c.snd) else c))
                  = List.find? (fun p => p.fst == k') (rest.map
                    (fun c => if c.fst == k then (c.fst, f c.snd) else c)) by
                simp [List.find?_cons_of_neg, hc']]
              rw [show List.find? (fun p => p.fst == k') (c :: rest)
                  = List.find? (fun p => p.fst == k') rest by
                simp [List.find?_cons_of_neg, hc']]
              exact ih

/-- In a map with HashMap-unique keys, every member pair is the lookup
result of its key. -/
theorem alistGet_of_mem_nodup {α : Type} (m : List (String × α))
    (hn : (m.map (·.fst)).Nodup) :
    ∀ p ∈ m, alistGet m p.fst = some p.snd := by
  induction m with
  | nil =>
      intro p hp
      cases hp
  | cons c rest ih =>
      intro p hp
      rcases List.mem_cons.mp hp with h | h
      · rw [h]
        unfold alistGet
        rw [show List.find? (fun q => q.fst == c.fst) (c :: rest) = some c by
          simp [List.find?_cons_of_pos]]
        rfl
      · have hns : (c.fst ∉ rest.map (·.fst)) ∧ (rest.map (·.fst)).Nodup := by
          rw [List.map_cons] at hn
          exact List.nodup_cons.mp hn
        have hne : (c.fst == p.fst) = false := by
          simp only [beq_eq_false_iff_ne, ne_eq]
          intro heq
          exact hns.1 (heq ▸ List.mem_map_of_mem (·.fst) h)
        unfold alistGet
        rw [show List.find? (fun q => q.fst == p.fst) (c :: rest)
            = List.find? (fun q => q.fst == p.fst) rest by
          simp [List.find?_cons_of_neg, hne]]
        exact ih hns.2 p h

/-- The dependency invariant of one project task list. -/
def DepInvList (pts : List Task) : Prop :=
  ∀ t ∈ pts,
    (t.status = TaskStatus.completed ∨ t.status = TaskStatus.running) →
    ∀ d ∈ t.dependencies, depOk pts d = true

/-- Core preservation lemma: mutating the first task with a given id
keeps the per-project dependency invariant, provided the mutation keeps
ids and dependencies, never un-completes a task that dependents may rely
on, and establishes the dependency condition when it makes the target
Completed or Running. -/
theorem depInvList_updateFirstTask (pts : List Task) (tid : String)
    (f : Task → Task)
    (hid : ∀ t, (f t).id = t.id)
    (hdeps : ∀ t, (f t).dependencies = t.dependencies)
    (hnc : ∀ t, pts.find? (fun x => x.id == tid) = some t →
      t.status ≠ TaskStatus.completed ∨ (f t).status = TaskStatus.completed)
    (hnew : ∀ t, pts.find? (fun x => x.id == tid) = some t →
      ((f t).status = TaskStatus.completed ∨ (f t).status = TaskStatus.running) →
      ∀ d ∈ t.dependencies, depOk (updateFirstTask pts tid f) d = true)
    (hinv : DepInvList pts) :
    DepInvList (updateFirstTask pts tid f) := by
  intro t' ht' hst d hd
  rcases mem_updateFirstTask pts tid f t' ht' with hmem | ⟨t, hfind, heq⟩
  · -- an untouched task: transfer its dependency condition
    have hold : depOk pts d = true := hinv t' hmem hst d hd
    unfold depOk
    rw [find?_updateFirstTask pts tid f d hid]
    by_cases hdt : d = tid
    · rw [if_pos hdt]
      cases hM : pts.find? (fun x => x.id == tid) with
      | none => rfl
      | some M =>
          unfold depOk at hold
          rw [hdt] at hold
          rw [hM] at hold
          have hMc : M.status = TaskStatus.completed := by simpa using hold
          rcases hnc M hM with hne | hfc
          · exact absurd hMc hne
          · simp [hfc]
    · rw [if_neg hdt]
      exact hold
  · -- the mutated task itself
    have hdt : d ∈ t.dependencies := by
      rw [heq, hdeps t] at hd
      exact hd
    rw [heq] at hst
    exact hnew t hfind hst d hdt

/-- Keys survive a keyed in-place mutation. -/
theorem keys_mapIf {α : Type} (m : List (String × α)) (k : String)
    (f : α → α) :
    (m.map (fun c => if c.fst == k then (c.fst, f c.snd) else c)).map (·.fst)
      = m.map (·.fst) := by
  rw [List.map_map]
  apply List.map_congr_left
  intro c _
  show (if (c.fst == k) = true then ((c.fst, f c.snd) : String × α) else c).fst = c.fst
  by_cases hc : (c.fst == k) = true
  · rw [if_pos hc]
  · rw [if_neg hc]

/-- updateProjectTasks only rewrites the named project's task list. -/
theorem tasks_updateProjectTasks (s : SchedState) (pid : String)
    (f : List Task → List Task) :
    (updateProjectTasks s pid f).tasks =
      s.tasks.map (fun c => if c.fst == pid then (c.fst, f c.snd) else c) := rfl

/-- TasksWF is preserved by updateProjectTasks. -/
theorem tasksWF_updateProjectTasks (s : SchedState) (pid : String)
    (f : List Task → List Task) (hwf : TasksWF s) :
    TasksWF (updateProjectTasks s pid f) := by
  unfold TasksWF
  rw [tasks_updateProjectTasks, keys_mapIf]
  exact hwf

/-- DepInv transfers along keyed task-map mutation when the mutation
preserves the invariant of the (unique) mutated project list. -/
theorem depInv_updateProjectTasks (s : SchedState) (pid : String)
    (f : List Task → List Task) (hwf : TasksWF s) (hinv : DepInv s)
    (hf : ∀ pts, alistGet s.tasks pid = some pts → DepInvList pts →
      DepInvList (f pts)) :
    DepInv (updateProjectTasks s pid f) := by
  intro p' hp' t ht hst d hd
  rw [tasks_updateProjectTasks] at hp'
  rcases List.mem_map.mp hp' with ⟨p, hp, hpe⟩
  have hpinv : DepInvList p.snd := fun t ht hst d hd => hinv p hp t ht hst d hd
  by_cases hc : (p.fst == pid) = true
  · have hget : alistGet s.tasks pid = some p.snd := by
      have := alistGet_of_mem_nodup s.tasks hwf p hp
      rwa [show p.fst = pid by simpa using hc] at this
    have hpeq : p' = (p.fst, f p.snd) := by
      rw [← hpe, if_pos hc]
    rw [hpeq] at ht ⊢
    exact hf p.snd hget hpinv t ht hst d hd
  · have hpeq : p' = p := by
      rw [← hpe, if_neg hc]
    rw [hpeq] at ht ⊢
    exact hpinv t ht hst d hd

/-- DepInv reads only the task map. -/
theorem depInv_of_tasks_eq (s s' : SchedState) (h : s'.tasks = s.tasks)
    (hinv : DepInv s) : DepInv s' := by
  intro p hp
  rw [h] at hp
  exact hinv p hp

/-- TasksWF reads only the task map. -/
theorem tasksWF_of_tasks_eq (s s' : SchedState) (h : s'.tasks = s.tasks)
    (hwf : TasksWF s) : TasksWF s' := by
  unfold TasksWF
  rw [h]
  exact hwf

/-- The status Completed is written by handle_task_completed. -/
def completeMut (now : Int) : Task → Task := fun t =>
  { t with status := TaskStatus.completed, completed_at := some now }

/-- The mutation written by handle_task_failed. -/
def failMut (err : String) (now : Int) : Task → Task := fun t =>
  let t1 : Task := { t with status := TaskStatus.failed, error := some err,
                            completed_at := some now }
  if t1.retry_count < 3 then
    { t1 with retry_count := t1.retry_count + 1, status := TaskStatus.queued }
  else t1

/-- handle_task_completed rewrites the task map exactly like its inner
updateProjectTasks call. -/
theorem handleTaskCompleted_tasks (s : SchedState) (pid tid : String)
    (now : Int) :
    (handleTaskCompleted s pid tid now).tasks =
      s.tasks.map (fun c => if c.fst == pid then
        (c.fst, updateFirstTask c.snd tid (completeMut now)) else c) := by
  show (checkForUnblockedTasks _ pid).tasks = _
  unfold checkForUnblockedTasks
  repeat' split
  all_goals rfl

/-- handle_task_failed rewrites the task map exactly like its inner
updateProjectTasks call. -/
theorem handleTaskFailed_tasks (s : SchedState) (pid tid err : String)
    (now : Int) :
    (handleTaskFailed s pid tid err now).tasks =
      s.tasks.map (fun c => if c.fst == pid then
        (c.fst, updateFirstTask c.snd tid (failMut err now)) else c) := by
  unfold handleTaskFailed
  dsimp only
  repeat' split
  all_goals rfl

/-- enqueue_task rewrites the task map exactly like its inner
updateProjectTasks call. -/
theorem enqueueTask_tasks (s : SchedState) (pid tid : String) :
    (enqueueTask s pid tid).tasks =
      s.tasks.map (fun c => if c.fst == pid then
        (c.fst, updateFirstTask c.snd tid
          (fun t => { t with status := TaskStatus.queued })) else c) := rfl

/-- start_task_execution rewrites the task map exactly like its inner
updateProjectTasks call. -/
theorem startTaskExecution_tasks (s : SchedState) (pid tid : String)
    (now : Int) :
    (startTaskExecution s pid tid now).tasks =
      s.tasks.map (fun c => if c.fst == pid then
        (c.fst, updateFirstTask c.snd tid (fun t =>
          { t with status := TaskStatus.running, started_at := some now }))
        else c) := rfl

/-- statusOf computed from the resolved project list and task. -/
theorem statusOf_eq_of (s : SchedState) (pid tid : String) (pts : List Task)
    (t : Task) (hget : alistGet s.tasks pid = some pts)
    (hfind : pts.find? (fun x => x.id == tid) = some t) :
    statusOf s pid tid = some t.status := by
  unfold statusOf
  rw [hget]
  show (pts.find? (fun x => x.id == tid)).map (·.status) = some t.status
  rw [hfind]
  rfl

/-- statusOf reads only the task map. -/
theorem statusOf_tasks_eq (s s' : SchedState) (pid tid : String)
    (h : s'.tasks = s.tasks) : statusOf s' pid tid = statusOf s pid tid := by
  unfold statusOf
  rw [h]

/-- are_dependencies_met reads only the task map. -/
theorem areDependenciesMet_tasks_eq (s s' : SchedState) (pid tid : String)
    (h : s'.tasks = s.tasks) :
    areDependenciesMet s' pid tid = areDependenciesMet s pid tid := by
  unfold areDependenciesMet
  rw [h]

/-- What a successful dependency gate means for the resolved task. -/
theorem areDependenciesMet_spec (s : SchedState) (pid tid : String)
    (pts : List Task) (t : Task)
    (hget : alistGet s.tasks pid = some pts)
    (hfind : pts.find? (fun x => x.id == tid) = some t)
    (h : areDependenciesMet s pid tid = true) :
    ∀ d ∈ t.dependencies, depOk pts d = true := by
  unfold areDependenciesMet at h
  rw [hget] at h
  have h2 : (match pts.find? (fun x => x.id == tid) with
      | none => false
      | some task => task.dependencies.all (fun dep_id => depOk pts dep_id))
      = true := h
  rw [hfind] at h2
  have h3 : t.dependencies.all (fun dep_id => depOk pts dep_id) = true := h2
  intro d hd
  exact List.all_eq_true.mp h3 d hd

/-- The dependency invariant survives enqueue_task of a not-Completed
task. -/
theorem depInv_enqueueTask (s : SchedState) (pid tid : String)
    (hwf : TasksWF s) (hinv : DepInv s)
    (hadm : statusOf s pid tid ≠ some TaskStatus.completed) :
    DepInv (enqueueTask s pid tid) := by
  apply depInv_of_tasks_eq (updateProjectTasks s pid
    (fun pts => updateFirstTask pts tid
      (fun t => { t with status := TaskStatus.queued })))
  · rw [enqueueTask_tasks, tasks_updateProjectTasks]
  apply depInv_updateProjectTasks s pid _ hwf hinv
  intro pts hget hlist
  refine depInvList_updateFirstTask pts tid _ (fun t => rfl) (fun t => rfl)
    ?_ ?_ hlist
  · intro t hfind
    left
    intro hc
    exact hadm (by rw [statusOf_eq_of s pid tid pts t hget hfind, hc])
  · intro t hfind hst d hd
    exfalso
    rcases hst with h | h <;> simp at h

/-- The dependency invariant survives start_task_execution of a
dependency-gated, not-Completed task. -/
theorem depInv_startTaskExecution (s : SchedState) (pid tid : String)
    (now : Int) (hwf : TasksWF s) (hinv : DepInv s)
    (hadm : statusOf s pid tid ≠ some TaskStatus.completed)
    (hdep : areDependenciesMet s pid tid = true) :
    DepInv (startTaskExecution s pid tid now) := by
  apply depInv_of_tasks_eq (updateProjectTasks s pid
    (fun pts => updateFirstTask pts tid
      (fun t => { t with status := TaskStatus.running, started_at := some now })))
  · rw [startTaskExecution_tasks, tasks_updateProjectTasks]
  apply depInv_updateProjectTasks s pid _ hwf hinv
  intro pts hget hlist
  refine depInvList_updateFirstTask pts tid _ (fun t => rfl) (fun t => rfl)
    ?_ ?_ hlist
  · intro t hfind
    left
    intro hc
    exact hadm (by rw [statusOf_eq_of s pid tid pts t hget hfind, hc])
  · intro t hfind hst d hd
    have hdeps := areDependenciesMet_spec s pid tid pts t hget hfind hdep
    by_cases hdt : d = tid
    · exfalso
      have h1 : depOk pts tid = true := hdeps tid (hdt ▸ hd)
      unfold depOk at h1
      rw [hfind] at h1
      have hc : t.status = TaskStatus.completed := by simpa using h1
      exact hadm (by rw [statusOf_eq_of s pid tid pts t hget hfind, hc])
    · unfold depOk
      rw [find?_updateFirstTask pts tid
        (fun t => { t with status := TaskStatus.running, started_at := some now })
        d (fun t => rfl), if_neg hdt]
      exact hdeps d hd

/-- The dependency invariant survives handle_task_completed of a Running
(previously dependency-gated) task. -/
theorem depInv_handleTaskCompleted (s : SchedState) (pid tid : String)
    (now : Int) (hwf : TasksWF s) (hinv : DepInv s)
    (hadm : statusOf s pid tid = some TaskStatus.running) :
    DepInv (handleTaskCompleted s pid tid now) := by
  apply depInv_of_tasks_eq (updateProjectTasks s pid
    (fun pts => updateFirstTask pts tid (completeMut now)))
  · rw [handleTaskCompleted_tasks, tasks_updateProjectTasks]
  apply depInv_updateProjectTasks s pid _ hwf hinv
  intro pts hget hlist
  refine depInvList_updateFirstTask pts tid _ (fun t => rfl) (fun t => rfl)
    ?_ ?_ hlist
  · intro t hfind
    right
    rfl
  · intro t hfind hst d hd
    have hrun : t.status = TaskStatus.running := by
      have h1 := statusOf_eq_of s pid tid pts t hget hfind
      rw [hadm] at h1
      exact (Option.some.inj h1).symm
    by_cases hdt : d = tid
    · unfold depOk
      rw [find?_updateFirstTask pts tid (completeMut now) d (fun t => rfl),
        if_pos hdt, hfind]
      rfl
    · unfold depOk
      rw [find?_updateFirstTask pts tid (completeMut now) d (fun t => rfl),
        if_neg hdt]
      exact hlist t (List.mem_of_find?_eq_some hfind) (Or.inr hrun) d hd

/-- failMut never changes the task id. -/
theorem failMut_id (err : String) (now : Int) (t : Task) :
    (failMut err now t).id = t.id := by
  unfold failMut
  dsimp only
  split <;> rfl

/-- failMut never changes the dependency list. -/
theorem failMut_deps (err : String) (now : Int) (t : Task) :
    (failMut err now t).dependencies = t.dependencies := by
  unfold failMut
  dsimp only
  split <;> rfl

/-- The dependency invariant survives handle_task_failed of a
not-Completed task. -/
theorem depInv_handleTaskFailed (s : SchedState) (pid tid err : String)
    (now : Int) (hwf : TasksWF s) (hinv : DepInv s)
    (hadm : statusOf s pid tid ≠ some TaskStatus.completed) :
    DepInv (handleTaskFailed s pid tid err now) := by
  apply depInv_of_tasks_eq (updateProjectTasks s pid
    (fun pts => updateFirstTask pts tid (failMut err now)))
  · rw [handleTaskFailed_tasks, tasks_updateProjectTasks]
  apply depInv_updateProjectTasks s pid _ hwf hinv
  intro pts hget hlist
  refine depInvList_updateFirstTask pts tid _ (failMut_id err now)
    (failMut_deps err now) ?_ ?_ hlist
  · intro t hfind
    left
    intro hc
    exact hadm (by rw [statusOf_eq_of s pid tid pts t hget hfind, hc])
  · intro t hfind hst d hd
    exfalso
    have : (failMut err now t).status = TaskStatus.queued ∨
        (failMut err now t).status = TaskStatus.failed := by
      unfold failMut
      by_cases hr : t.retry_count < 3
      · left
        rw [if_pos hr]
      · right
        rw [if_neg hr]
    rcases this with h1 | h1 <;> rcases hst with h2 | h2 <;>
      rw [h1] at h2 <;> simp at h2

/-- TasksWF survives any state whose tasks are a keyed mutation. -/
theorem tasksWF_of_mapIf (s s' : SchedState) (pid : String)
    (f : List Task → List Task)
    (h : s'.tasks = s.tasks.map (fun c =>
      if c.fst == pid then (c.fst, f c.snd) else c))
    (hwf : TasksWF s) : TasksWF s' := by
  unfold TasksWF
  rw [h, keys_mapIf]
  exact hwf

/-- One dispatch iteration of process_queue preserves the dependency
invariant: the only status written is Running, and only behind the
are_dependencies_met gate. -/
theorem depInv_processIter (agent : Option String) (now : Int)
    (s : SchedState) (hwf : TasksWF s) (hinv : DepInv s)
    (hadm : Admissible s (SchedEvent.dispatch agent)) :
    ∀ s', (processIter (fun _ _ _ => agent) now s = IterOutcome.cont s' ∨
           processIter (fun _ _ _ => agent) now s = IterOutcome.stop s') →
      DepInv s' ∧ TasksWF s' := by
  intro s' hs'
  unfold processIter at hs'
  cases hq : s.queue with
  | nil =>
      rw [hq] at hs'
      dsimp only at hs'
      rcases hs' with h | h
      · cases h
      · have : s = s' := IterOutcome.stop.inj h
        rw [← this]
        exact ⟨hinv, hwf⟩
  | cons qid rest =>
      rw [hq] at hs'
      dsimp only at hs'
      have hadm2 : Admissible s (SchedEvent.dispatch agent) := hadm
      unfold Admissible at hadm2
      rw [hq] at hadm2
      dsimp only at hadm2
      rcases hsp : splitOnColon qid with _ | ⟨pid0, _ | ⟨tid0, _ | ⟨z, zs⟩⟩⟩
      · rw [hsp] at hs'
        dsimp only at hs'
        rcases hs' with h | h
        · have : _ = s' := IterOutcome.cont.inj h
          rw [← this]
          exact ⟨depInv_of_tasks_eq s _ rfl hinv, tasksWF_of_tasks_eq s _ rfl hwf⟩
        · cases h
      · rw [hsp] at hs'
        dsimp only at hs'
        rcases hs' with h | h
        · have : _ = s' := IterOutcome.cont.inj h
          rw [← this]
          exact ⟨depInv_of_tasks_eq s _ rfl hinv, tasksWF_of_tasks_eq s _ rfl hwf⟩
        · cases h
      · -- the parsed "pid:tid" head
        rw [hsp] at hs'
        dsimp only at hs'
        rw [hsp] at hadm2
        dsimp only at hadm2
        by_cases hdep : areDependenciesMet { s with queue := rest } pid0 tid0 = true
        · rw [if_neg (by simp [hdep])] at hs'
          cases agent with
          | some name =>
              dsimp only at hs'
              have hwf1 : TasksWF { s with queue := rest, active := s.active ++ [(qid, name)] } :=
                tasksWF_of_tasks_eq s _ rfl hwf
              have hinv1 : DepInv { s with queue := rest, active := s.active ++ [(qid, name)] } :=
                depInv_of_tasks_eq s _ rfl hinv
              have hadm1 : statusOf { s with queue := rest, active := s.active ++ [(qid, name)] } pid0 tid0 ≠ some TaskStatus.completed := by
                rw [statusOf_tasks_eq s { s with queue := rest, active := s.active ++ [(qid, name)] } pid0 tid0 rfl]
                exact hadm2
              have hdep1 : areDependenciesMet { s with queue := rest, active := s.active ++ [(qid, name)] } pid0 tid0 = true := by
                rw [areDependenciesMet_tasks_eq s ({ s with queue := rest }) pid0 tid0 rfl] at hdep
                rw [areDependenciesMet_tasks_eq s { s with queue := rest, active := s.active ++ [(qid, name)] } pid0 tid0 rfl]
                exact hdep
              have hmain : DepInv (startTaskExecution { s with queue := rest, active := s.active ++ [(qid, name)] } pid0 tid0 now) ∧ TasksWF (startTaskExecution { s with queue := rest, active := s.active ++ [(qid, name)] } pid0 tid0 now) :=
                ⟨depInv_startTaskExecution _ pid0 tid0 now hwf1 hinv1 hadm1 hdep1,
                 tasksWF_of_mapIf _ _ pid0
                   (fun ts => updateFirstTask ts tid0 (fun t =>
                     { t with status := TaskStatus.running, started_at := some now }))
                   (startTaskExecution_tasks _ pid0 tid0 now) hwf1⟩
              by_cases hcl : (startTaskExecution { s with queue := rest, active := s.active ++ [(qid, name)] } pid0 tid0 now).active.length ≥ getMaxConcurrentTasks
              · rw [if_pos hcl] at hs'
                rcases hs' with h | h
                · cases h
                · have : _ = s' := IterOutcome.stop.inj h
                  rw [← this]
                  exact hmain
              · rw [if_neg hcl] at hs'
                rcases hs' with h | h
                · have : _ = s' := IterOutcome.cont.inj h
                  rw [← this]
                  exact hmain
                · cases h
          | none =>
              dsimp only at hs'
              rcases hs' with h | h
              · cases h
              · have : _ = s' := IterOutcome.stop.inj h
                rw [← this]
                exact ⟨depInv_of_tasks_eq s _ rfl hinv,
                       tasksWF_of_tasks_eq s _ rfl hwf⟩
        · rw [if_pos (by simp [hdep])] at hs'
          rcases hs' with h | h
          · have : _ = s' := IterOutcome.cont.inj h
            rw [← this]
            exact ⟨depInv_of_tasks_eq s _ rfl hinv,
                   tasksWF_of_tasks_eq s _ rfl hwf⟩
          · cases h
      · rw [hsp] at hs'
        dsimp only at hs'
        rcases hs' with h | h
        · have : _ = s' := IterOutcome.cont.inj h
          rw [← this]
          exact ⟨depInv_of_tasks_eq s _ rfl hinv, tasksWF_of_tasks_eq s _ rfl hwf⟩
        · cases h

/-- Every admissible scheduler event preserves the (strengthened)
dependency invariant and the key discipline of the task map. -/
theorem depInv_stepEvent (now : Int) (e : SchedEvent) (s : SchedState)
    (hwf : TasksWF s) (hinv : DepInv s) (hadm : Admissible s e) :
    DepInv (stepEvent now e s) ∧ TasksWF (stepEvent now e s) := by
  cases e with
  | enqueue pid tid =>
      have hadm' : statusOf s pid tid ≠ some TaskStatus.completed := hadm
      exact ⟨depInv_enqueueTask s pid tid hwf hinv hadm',
             tasksWF_of_mapIf s _ pid
               (fun ts => updateFirstTask ts tid
                 (fun t => { t with status := TaskStatus.queued }))
               (enqueueTask_tasks s pid tid) hwf⟩
  | dispatch agent =>
      have hrw : stepEvent now (SchedEvent.dispatch agent) s =
          (match processIter (fun _ _ _ => agent) now s with
           | IterOutcome.cont s' => s'
           | IterOutcome.stop s' => s') := rfl
      rw [hrw]
      cases hpi : processIter (fun _ _ _ => agent) now s with
      | cont s' =>
          exact depInv_processIter agent now s hwf hinv hadm s' (Or.inl hpi)
      | stop s' =>
          exact depInv_processIter agent now s hwf hinv hadm s' (Or.inr hpi)
  | taskDone pid tid =>
      have hadm' : statusOf s pid tid = some TaskStatus.running := hadm
      exact ⟨depInv_handleTaskCompleted s pid tid now hwf hinv hadm',
             tasksWF_of_mapIf s _ pid
               (fun ts => updateFirstTask ts tid (completeMut now))
               (handleTaskCompleted_tasks s pid tid now) hwf⟩
  | taskFail pid tid err =>
      have hadm' : statusOf s pid tid ≠ some TaskStatus.completed := hadm
      exact ⟨depInv_handleTaskFailed s pid tid err now hwf hinv hadm',
             tasksWF_of_mapIf s _ pid
               (fun ts => updateFirstTask ts tid (failMut err now))
               (handleTaskFailed_tasks s pid tid err now) hwf⟩
  | reorder ids =>
      exact ⟨depInv_of_tasks_eq s _ rfl hinv, tasksWF_of_tasks_eq s _ rfl hwf⟩

/-- Run-level preservation under the Admissible hypotheses.  This shows
where the code's guarantee stops: the resolvable-dependencies invariant
survives every event run only given the queue-hygiene clause of
Admissible, which the code itself does not enforce. -/
theorem depInv_runEvents (now : Int) (events : List SchedEvent)
    (s0 : SchedState) (hwf : TasksWF s0) (hinv : DepInv s0)
    (hrun : AdmissibleRun now events s0) :
    DepInv (runEvents now events s0) := by
  induction events generalizing s0 with
  | nil => exact hinv
  | cons e es ih =>
      have hstep := depInv_stepEvent now e s0 hwf hinv hrun.1
      exact ih (stepEvent now e s0) hstep.2 hstep.1 hrun.2

/-- C1: the dependency invariant is not maintained by the code — it is
falsified by a single process_queue iteration from a reachable state.
In staleState every task is Completed and every dependency of every
task is Completed (so the invariant holds, in the claim's strong
reading); the stale queue id "p:c" nevertheless passes
are_dependencies_met, which checks only c's own dependencies and never
c's status, so the iteration finds an agent and flips the Completed
task c back to Running; afterwards the Completed task d has its
dependency c non-Completed: the invariant is violated even in its
weakest (resolvable-dependencies) reading.  Independently,
are_dependencies_met also treats a dependency id matching no task as
met (ghostState), so the claim's "every task id listed in
T.dependencies refers to a task whose status is Completed" is not what
the gate checks either. -/
theorem c1_completed_redispatch :
    TasksWF staleState ∧ DepInv staleState ∧ DepInvClaimed staleState ∧
    areDependenciesMet staleState "p" "c" = true ∧
    statusOf (stepEvent 0 (SchedEvent.dispatch (some "a")) staleState)
      "p" "c" = some TaskStatus.running ∧
    ¬ DepInv (stepEvent 0 (SchedEvent.dispatch (some "a")) staleState) ∧
    ¬ DepInvClaimed (stepEvent 0 (SchedEvent.dispatch (some "a")) staleState) ∧
    areDependenciesMet ghostState "p" "t" = true :=
  ⟨by decide, by decide, by decide, by decide, by decide, by decide,
   by decide, by decide⟩

/-! ### Context-chain traversal lemmas (claim C3) -/

/-- Unfolding of collect_context_recursive at positive fuel. -/
theorem collectContextRecursive_succ (entries : List ContextEntry)
    (f : Nat) (id : String) (acc : ChainAcc) :
    collectContextRecursive entries (f + 1) id acc =
      (if acc.visited.contains id then acc
       else
         match entries.find? (fun e => e.id == id) with
         | none => { acc with visited := id :: acc.visited }
         | some entry =>
             let acc2 := collectContextList entries f entry.references
               { acc with visited := id :: acc.visited }
             { acc2 with result := acc2.result ++ [entry] }) := rfl

/-- The sibling loop on an empty id list. -/
theorem collectContextList_nil (entries : List ContextEntry) (f : Nat)
    (acc : ChainAcc) : collectContextList entries f [] acc = acc := rfl

/-- The sibling loop peels one collect call. -/
theorem collectContextList_cons (entries : List ContextEntry) (f : Nat)
    (id : String) (ids : List String) (acc : ChainAcc) :
    collectContextList entries f (id :: ids) acc =
      collectContextList entries f ids
        (collectContextRecursive entries f id acc) := rfl

/-- With no fuel the whole pass is the identity. -/
theorem collectContextList_zero (entries : List ContextEntry)
    (ids : List String) (acc : ChainAcc) :
    collectContextList entries 0 ids acc = acc := by
  induction ids generalizing acc with
  | nil => rfl
  | cons id ids ih => exact ih acc

/-- Growing the visited set can only shrink the unvisited-count. -/
theorem chainMeasure_mono (entries : List ContextEntry) (a b : ChainAcc)
    (h : a.visited ⊆ b.visited) :
    chainMeasure entries b ≤ chainMeasure entries a :=
  Finset.card_le_card (Finset.sdiff_subset_sdiff (Finset.Subset.refl _)
    (fun x hx => List.mem_toFinset.mpr (h (List.mem_toFinset.mp hx))))

/-- Unconditional traversal facts: emitted ids stay distinct and inside
the visited set, the accumulator only grows, and every newly emitted
entry is reached from the starting id(s) by a reference path shorter
than the fuel. -/
theorem collect_unconditional (entries : List ContextEntry) :
    ∀ f : Nat,
      (∀ id acc, ChainNodupInv acc →
        ChainNodupInv (collectContextRecursive entries f id acc) ∧
        acc.visited ⊆ (collectContextRecursive entries f id acc).visited ∧
        ∃ d, (collectContextRecursive entries f id acc).result
            = acc.result ++ d ∧
          ∀ e ∈ d, e.id ∉ acc.visited ∧
            ∃ k, k < f ∧ RefPath entries id e.id k) ∧
      (∀ ids acc, ChainNodupInv acc →
        ChainNodupInv (collectContextList entries f ids acc) ∧
        acc.visited ⊆ (collectContextList entries f ids acc).visited ∧
        ∃ d, (collectContextList entries f ids acc).result
            = acc.result ++ d ∧
          ∀ e ∈ d, e.id ∉ acc.visited ∧
            ∃ r ∈ ids, ∃ k, k < f ∧ RefPath entries r e.id k) := by
  intro f
  induction f with
  | zero =>
      constructor
      · intro id acc h
        exact ⟨h, List.Subset.refl _,
          ⟨[], (List.append_nil _).symm, fun e he => absurd he (List.not_mem_nil e)⟩⟩
      · intro ids acc h
        rw [collectContextList_zero]
        exact ⟨h, List.Subset.refl _,
          ⟨[], (List.append_nil _).symm, fun e he => absurd he (List.not_mem_nil e)⟩⟩
  | succ f ih =>
      have hrec : ∀ id acc, ChainNodupInv acc →
          ChainNodupInv (collectContextRecursive entries (f + 1) id acc) ∧
          acc.visited ⊆ (collectContextRecursive entries (f + 1) id acc).visited ∧
          ∃ d, (collectContextRecursive entries (f + 1) id acc).result
              = acc.result ++ d ∧
            ∀ e ∈ d, e.id ∉ acc.visited ∧
              ∃ k, k < f + 1 ∧ RefPath entries id e.id k := by
        intro id acc h
        rw [collectContextRecursive_succ]
        cases hvis : acc.visited.contains id with
        | true =>
            rw [if_pos rfl]
            exact ⟨h, List.Subset.refl _,
              ⟨[], (List.append_nil _).symm, fun e he => absurd he (List.not_mem_nil e)⟩⟩
        | false =>
            rw [if_neg (by decide)]
            have hnm : id ∉ acc.visited := by simpa using hvis
            cases hf : entries.find? (fun e => e.id == id) with
            | none =>
                dsimp only
                refine ⟨⟨h.1, fun e he => List.mem_cons_of_mem _ (h.2 e he)⟩,
                  List.subset_cons_self _ _,
                  ⟨[], (List.append_nil _).symm,
                   fun e he => absurd he (List.not_mem_nil e)⟩⟩
            | some entry =>
                dsimp only
                have hid : entry.id = id := by
                  have := List.find?_some hf
                  exact eq_of_beq this
                have h1 : ChainNodupInv
                    { acc with visited := id :: acc.visited } :=
                  ⟨h.1, fun e he => List.mem_cons_of_mem _ (h.2 e he)⟩
                obtain ⟨h2inv, h2sub, d', hd'eq, hd'⟩ :=
                  ih.2 entry.references { acc with visited := id :: acc.visited } h1
                dsimp only at hd'eq
                constructor
                · constructor
                  · show ((_ ++ [entry]).map _).Nodup
                    rw [List.map_append]
                    refine List.nodup_append.mpr
                      ⟨h2inv.1, List.nodup_singleton _, ?_⟩
                    intro x hx hxe
                    simp only [List.map_cons, List.map_nil,
                      List.mem_singleton] at hxe
                    subst hxe
                    obtain ⟨e', he'mem, he'id⟩ := List.mem_map.mp hx
                    have he'id2 : e'.id = entry.id := he'id
                    rw [hd'eq] at he'mem
                    rcases List.mem_append.mp he'mem with h3 | h3
                    · have h4 := h.2 e' h3
                      rw [he'id2, hid] at h4
                      exact hnm h4
                    · have h4 := (hd' e' h3).1
                      rw [he'id2, hid] at h4
                      exact h4 (List.mem_cons_self _ _)
                  · intro e he
                    rcases List.mem_append.mp he with h3 | h3
                    · exact h2inv.2 e h3
                    · rw [List.mem_singleton.mp h3, hid]
                      exact h2sub (List.mem_cons_self _ _)
                · constructor
                  · exact fun x hx => h2sub (List.mem_cons_of_mem _ hx)
                  · refine ⟨d' ++ [entry], ?_, ?_⟩
                    · rw [hd'eq, List.append_assoc]
                    · intro e he
                      rcases List.mem_append.mp he with h3 | h3
                      · obtain ⟨hnv, r, hr, k, hk, hp⟩ := hd' e h3
                        refine ⟨fun hc => hnv (List.mem_cons_of_mem _ hc),
                          k + 1, Nat.succ_lt_succ hk, RefPath.step hf hr hp⟩
                      · rw [List.mem_singleton.mp h3]
                        refine ⟨by rw [hid]; exact hnm, 0, Nat.succ_pos f, ?_⟩
                        rw [hid]
                        exact RefPath.here id
      refine ⟨hrec, ?_⟩
      intro ids
      induction ids with
      | nil =>
          intro acc h
          rw [collectContextList_nil]
          exact ⟨h, List.Subset.refl _,
            ⟨[], (List.append_nil _).symm, fun e he => absurd he (List.not_mem_nil e)⟩⟩
      | cons id ids ihids =>
          intro acc h
          rw [collectContextList_cons]
          obtain ⟨hminv, hmsub, d1, hd1eq, hd1⟩ := hrec id acc h
          obtain ⟨houtinv, houtsub, d2, hd2eq, hd2⟩ :=
            ihids (collectContextRecursive entries (f + 1) id acc) hminv
          refine ⟨houtinv, fun x hx => houtsub (hmsub hx),
            ⟨d1 ++ d2, ?_, ?_⟩⟩
          · rw [hd2eq, hd1eq, List.append_assoc]
          · intro e he
            rcases List.mem_append.mp he with h3 | h3
            · obtain ⟨hnv, k, hk, hp⟩ := hd1 e h3
              exact ⟨hnv, id, List.mem_cons_self _ _, k, hk, hp⟩
            · obtain ⟨hnv, r, hr, k, hk, hp⟩ := hd2 e h3
              exact ⟨fun hc => hnv (hmsub hc),
                r, List.mem_cons_of_mem _ hr, k, hk, hp⟩

/-- Under an acyclicity witness for the reference graph and enough fuel
to cover every unvisited entry id, the traversal preserves ChainInv —
in particular the emission order — and marks all starting ids visited;
newly emitted entries sit at ranks below their starting id. -/
theorem collect_acyclic (entries : List ContextEntry)
    (rank : String → Nat) (hra : RankedAcyclic entries rank) :
    ∀ f : Nat,
      (∀ id acc, ChainInv entries acc →
        chainMeasure entries acc + 1 ≤ f →
        ChainInv entries (collectContextRecursive entries f id acc) ∧
        acc.visited ⊆ (collectContextRecursive entries f id acc).visited ∧
        id ∈ (collectContextRecursive entries f id acc).visited ∧
        ∃ d, (collectContextRecursive entries f id acc).result
            = acc.result ++ d ∧
          ∀ e ∈ d, rank e.id ≤ rank id) ∧
      (∀ ids acc, ChainInv entries acc →
        chainMeasure entries acc + 1 ≤ f →
        ChainInv entries (collectContextList entries f ids acc) ∧
        acc.visited ⊆ (collectContextList entries f ids acc).visited ∧
        (∀ r ∈ ids, r ∈ (collectContextList entries f ids acc).visited) ∧
        ∃ d, (collectContextList entries f ids acc).result
            = acc.result ++ d ∧
          ∀ e ∈ d, ∃ r ∈ ids, rank e.id ≤ rank r) := by
  intro f
  induction f with
  | zero =>
      constructor
      · intro id acc hinv hm
        exact absurd hm (Nat.not_succ_le_zero _)
      · intro ids acc hinv hm
        exact absurd hm (Nat.not_succ_le_zero _)
  | succ f ih =>
      have hrec : ∀ id acc, ChainInv entries acc →
          chainMeasure entries acc + 1 ≤ f + 1 →
          ChainInv entries (collectContextRecursive entries (f + 1) id acc) ∧
          acc.visited ⊆ (collectContextRecursive entries (f + 1) id acc).visited ∧
          id ∈ (collectContextRecursive entries (f + 1) id acc).visited ∧
          ∃ d, (collectContextRecursive entries (f + 1) id acc).result
              = acc.result ++ d ∧
            ∀ e ∈ d, rank e.id ≤ rank id := by
        intro id acc hinv hm
        rw [collectContextRecursive_succ]
        cases hvis : acc.visited.contains id with
        | true =>
            rw [if_pos rfl]
            exact ⟨hinv, List.Subset.refl _, by simpa using hvis,
              ⟨[], (List.append_nil _).symm,
               fun e he => absurd he (List.not_mem_nil e)⟩⟩
        | false =>
            rw [if_neg (by decide)]
            have hnm : id ∉ acc.visited := by simpa using hvis
            have hinv1 : ChainInv entries
                { acc with visited := id :: acc.visited } :=
              ⟨hinv.1,
               fun e he r hr => List.mem_cons_of_mem _ (hinv.2.1 e he r hr),
               hinv.2.2⟩
            cases hf : entries.find? (fun e => e.id == id) with
            | none =>
                dsimp only
                exact ⟨hinv1, List.subset_cons_self _ _,
                  List.mem_cons_self _ _,
                  ⟨[], (List.append_nil _).symm,
                   fun e he => absurd he (List.not_mem_nil e)⟩⟩
            | some entry =>
                dsimp only
                have hid : entry.id = id := by
                  have := List.find?_some hf
                  exact eq_of_beq this
                have hentry : entry ∈ entries := List.mem_of_find?_eq_some hf
                have hm1 : chainMeasure entries
                    { acc with visited := id :: acc.visited } + 1 ≤ f := by
                  have hidsd : id ∈ (entries.map (fun e => e.id)).toFinset
                      \ acc.visited.toFinset :=
                    Finset.mem_sdiff.mpr
                      ⟨List.mem_toFinset.mpr
                        (List.mem_map.mpr ⟨entry, hentry, hid⟩),
                       fun hc => hnm (List.mem_toFinset.mp hc)⟩
                  have heq : chainMeasure entries
                      { acc with visited := id :: acc.visited } + 1
                      = chainMeasure entries acc := by
                    show ((entries.map (fun e => e.id)).toFinset
                      \ (id :: acc.visited).toFinset).card + 1 = _
                    rw [List.toFinset_cons, Finset.sdiff_insert]
                    exact Finset.card_erase_add_one hidsd
                  have : chainMeasure entries acc ≤ f :=
                    Nat.le_of_succ_le_succ hm
                  rw [heq]
                  exact this
                obtain ⟨h2inv, h2sub, h2all, d', hd'eq, hd'⟩ :=
                  ih.2 entry.references
                    { acc with visited := id :: acc.visited } hinv1 hm1
                dsimp only at hd'eq
                refine ⟨⟨?_, ?_, ?_⟩, ?_, ?_, ?_⟩
                · show ChainOrdered (_ ++ [entry])
                  refine List.pairwise_append.mpr
                    ⟨h2inv.1, List.pairwise_singleton _ _, ?_⟩
                  intro a ha b hb
                  rw [List.mem_singleton.mp hb]
                  have ha' := ha
                  rw [hd'eq] at ha'
                  rcases List.mem_append.mp ha' with h3 | h3
                  · intro habs
                    rw [hid] at habs
                    exact hnm (hinv.2.1 a h3 id habs)
                  · intro habs
                    obtain ⟨r, hr, hle⟩ := hd' a h3
                    have hlt1 : rank r < rank entry.id := hra entry hentry r hr
                    have hlt2 : rank entry.id < rank a.id :=
                      hra a (h2inv.2.2 a ha) entry.id habs
                    exact absurd (lt_of_le_of_lt (le_of_lt hlt2)
                      (lt_of_le_of_lt hle hlt1)) (lt_irrefl _)
                · intro e he r hr
                  rcases List.mem_append.mp he with h3 | h3
                  · exact h2inv.2.1 e h3 r hr
                  · rw [List.mem_singleton.mp h3] at hr
                    exact h2all r hr
                · intro e he
                  rcases List.mem_append.mp he with h3 | h3
                  · exact h2inv.2.2 e h3
                  · rw [List.mem_singleton.mp h3]
                    exact hentry
                · exact fun x hx => h2sub (List.mem_cons_of_mem _ hx)
                · exact h2sub (List.mem_cons_self _ _)
                · refine ⟨d' ++ [entry], ?_, ?_⟩
                  · rw [hd'eq, List.append_assoc]
                  · intro e he
                    rcases List.mem_append.mp he with h3 | h3
                    · obtain ⟨r, hr, hle⟩ := hd' e h3
                      have hlt : rank r < rank id := by
                        rw [← hid]
                        exact hra entry hentry r hr
                      exact le_of_lt (lt_of_le_of_lt hle hlt)
                    · rw [List.mem_singleton.mp h3, hid]
      refine ⟨hrec, ?_⟩
      intro ids
      induction ids with
      | nil =>
          intro acc hinv hm
          rw [collectContextList_nil]
          exact ⟨hinv, List.Subset.refl _,
            fun r hr => absurd hr (List.not_mem_nil r),
            ⟨[], (List.append_nil _).symm,
             fun e he => absurd he (List.not_mem_nil e)⟩⟩
      | cons id ids ihids =>
          intro acc hinv hm
          rw [collectContextList_cons]
          obtain ⟨hminv, hmsub, hmid, d1, hd1eq, hd1⟩ := hrec id acc hinv hm
          have hm' : chainMeasure entries
              (collectContextRecursive entries (f + 1) id acc) + 1 ≤ f + 1 :=
            le_trans (Nat.succ_le_succ
              (chainMeasure_mono entries acc _ hmsub)) hm
          obtain ⟨houtinv, houtsub, hall, d2, hd2eq, hd2⟩ :=
            ihids (collectContextRecursive entries (f + 1) id acc) hminv hm'
          refine ⟨houtinv, fun x hx => houtsub (hmsub hx), ?_,
            ⟨d1 ++ d2, ?_, ?_⟩⟩
          · intro r hr
            rcases List.mem_cons.mp hr with h3 | h3
            · rw [h3]
              exact houtsub hmid
            · exact hall r h3
          · rw [hd2eq, hd1eq, List.append_assoc]
          · intro e he
            rcases List.mem_append.mp he with h3 | h3
            · exact ⟨id, List.mem_cons_self _ _, hd1 e h3⟩
            · obtain ⟨r, hr, hle⟩ := hd2 e h3
              exact ⟨r, List.mem_cons_of_mem _ hr, hle⟩

/-- C3 (amended): get_context_chain (i) never emits the same
context-entry id twice, cycles included; (ii) only emits entries reached
from some root id of the task's context index by a reference path of
length < max_depth (it descends at most max_depth levels); but (iii) the
claimed referenced-before-referencer emission order holds only when the
reference graph is acyclic (witnessed by a rank function) AND max_depth
exceeds the number of entries, so that the depth cutoff cannot truncate
a subtree — not for every entry map and max_depth as claimed (see the
counterexample). -/
theorem c3_get_context_chain (pool : ContextPool) (task_id : String)
    (max_depth : Nat) :
    ((getContextChain pool task_id max_depth).map (fun e => e.id)).Nodup ∧
    (∀ e ∈ getContextChain pool task_id max_depth,
      ∃ roots, alistGet pool.task_contexts task_id = some roots ∧
        ∃ r ∈ roots, ∃ k, k < max_depth ∧ RefPath pool.entries r e.id k) ∧
    (∀ rank, RankedAcyclic pool.entries rank →
      pool.entries.length + 1 ≤ max_depth →
      ChainOrdered (getContextChain pool task_id max_depth)) := by
  unfold getContextChain
  cases hroots : alistGet pool.task_contexts task_id with
  | none =>
      refine ⟨List.nodup_nil, ?_, ?_⟩
      · intro e he
        exact absurd he (List.not_mem_nil e)
      · intro rank hra hdeep
        exact List.Pairwise.nil
  | some roots =>
      have hstart : ChainNodupInv ⟨[], []⟩ :=
        ⟨List.nodup_nil, fun e he => absurd he (List.not_mem_nil e)⟩
      obtain ⟨hinv, hsub, d, hdeq, hd⟩ :=
        (collect_unconditional pool.entries max_depth).2 roots ⟨[], []⟩ hstart
      refine ⟨hinv.1, ?_, ?_⟩
      · intro e he
        dsimp only at he
        rw [hdeq] at he
        obtain ⟨hnv, r, hr, k, hk, hp⟩ := hd e (by simpa using he)
        exact ⟨roots, rfl, r, hr, k, hk, hp⟩
      · intro rank hra hdeep
        have hstart2 : ChainInv pool.entries ⟨[], []⟩ :=
          ⟨List.Pairwise.nil, fun e he => absurd he (List.not_mem_nil e),
           fun e he => absurd he (List.not_mem_nil e)⟩
        have hmeas : chainMeasure pool.entries ⟨[], []⟩ + 1 ≤ max_depth := by
          have h1 : chainMeasure pool.entries ⟨[], []⟩
              ≤ pool.entries.length := by
            show ((pool.entries.map (fun e => e.id)).toFinset
              \ ([] : List String).toFinset).card ≤ _
            rw [List.toFinset_nil, Finset.sdiff_empty]
            calc (pool.entries.map (fun e => e.id)).toFinset.card
                ≤ (pool.entries.map (fun e => e.id)).length :=
                  List.toFinset_card_le _
              _ = pool.entries.length := List.length_map _ _
          exact le_trans (Nat.succ_le_succ h1) hdeep
        exact ((collect_acyclic pool.entries rank hra max_depth).2
          roots ⟨[], []⟩ hstart2 hmeas).1.1

/-- Witness for C3: on the acyclic pool C -> D with depth 3 the chain
comes out ordered (and indeed get_context_chain yields [D, C]). -/
theorem c3_get_context_chain_witness :
    ChainOrdered (getContextChain cutoffPool "t" 3) ∧
    RankedAcyclic cutoffPool.entries
      (fun id => if id == "C" then 1 else 0) ∧
    cutoffPool.entries.length + 1 ≤ 3 :=
  ⟨(c3_get_context_chain cutoffPool "t" 3).2.2
      (fun id => if id == "C" then 1 else 0) (by decide) (by decide),
   by decide, by decide⟩

/-- C3 counterexample to the claimed unconditional emission order: on
the two-entry reference cycle A <-> B with ample depth the chain is
[B, A] with A still referencing the later-placed... rather, the chain
emits an entry before an entry it references; and on the acyclic pool
C -> D with max_depth = 1 the cutoff truncates D below C and the root
loop then emits D after C, so the order also fails without any cycle. -/
theorem c3_get_context_chain_counterexample :
    ¬ ChainOrdered (getContextChain cyclePool "t" 10) ∧
    RankedAcyclic cutoffPool.entries
      (fun id => if id == "C" then 1 else 0) ∧
    ¬ ChainOrdered (getContextChain cutoffPool "t" 1) :=
  ⟨by decide, by decide, by decide⟩

end SC
